import Mathlib

/-!
Shallow embedding of the AI Textbook Generator core (`app.py`) in Lean 4.

Text is modelled as `List Char`.  Python regular-expression substitutions are
embedded as structural scanning functions that reproduce the left-to-right,
non-overlapping behaviour of `re.sub`, with ASCII case folding where the source
uses `re.IGNORECASE` (all patterns in the source are ASCII).  The external
completion service (`safe_model_call`) is modelled as a function from the prompt
to either completion text or an error message, so that side-effect ordering and
call counts are observable.
-/

abbrev Text := List Char

/-- ASCII lower-casing, as used by the case-insensitive regex matches. -/
def toLowerAscii (c : Char) : Char :=
  if 'A' ≤ c ∧ c ≤ 'Z' then Char.ofNat (c.toNat + 32) else c

/-- The character class of the regex `\s` (and of Python `str.strip()` /
`str.split()` whitespace, restricted to ASCII). -/
def isSpaceRe (c : Char) : Bool :=
  c = ' ' || c = '\t' || c = '\n' || c = '\r' || c = '\x0b' || c = '\x0c'

/-- The character class `[ \t]` used by the whitespace-collapsing regex. -/
def isST (c : Char) : Bool :=
  c = ' ' || c = '\t'

/-- ASCII word characters, the class `\w` as used at the `\b` boundary of the
section-heading regex. -/
def isWordChar (c : Char) : Bool :=
  c.isAlphanum || c = '_'

/-- Python `str.strip()`. -/
def pyStrip (t : Text) : Text :=
  ((t.dropWhile isSpaceRe).reverse.dropWhile isSpaceRe).reverse

/-- Line-break characters recognised by Python `str.splitlines()`. -/
def isLineBreak (c : Char) : Bool :=
  c = '\n' || c = '\r' || c = '\x0b' || c = '\x0c' ||
  c = '\x1c' || c = '\x1d' || c = '\x1e' || c = '\u0085' ||
  c = '\u2028' || c = '\u2029'

/-- Worker for `pySplitlines`: `cur` is the reversed current line. -/
def slGo (cur : Text) : Text → List Text
  | [] => [cur.reverse]
  | '\r' :: '\n' :: rest =>
      cur.reverse :: (if rest.isEmpty then [] else slGo [] rest)
  | c :: rest =>
      if isLineBreak c then cur.reverse :: (if rest.isEmpty then [] else slGo [] rest)
      else slGo (c :: cur) rest

/-- Python `str.splitlines()` (`\r\n` counts as a single break; no trailing
empty line). -/
def pySplitlines (t : Text) : List Text :=
  if t.isEmpty then [] else slGo [] t

/-- Split on `'\n'` exactly (used to localise the markdown-star regexes, whose
`.` matches every character except `'\n'`). -/
def splitOnNL : Text → List Text
  | [] => [[]]
  | c :: rest =>
      if c = '\n' then [] :: splitOnNL rest
      else (splitOnNL rest).modifyHead (fun p => c :: p)

/-- Join with a given separator, Python `sep.join`. -/
def joinWith (sep : Text) : List Text → Text
  | [] => []
  | [p] => p
  | p :: ps => p ++ sep ++ joinWith sep ps

/-- Join with `'\n'`. -/
def joinNL : List Text → Text
  | [] => []
  | [p] => p
  | p :: q :: ps => p ++ '\n' :: joinNL (q :: ps)

/-- Number of `'*'` characters. -/
def countStar : Text → Nat
  | [] => 0
  | c :: r => (if c = '*' then 1 else 0) + countStar r

/-- One pass of `re.sub(r"\*(.*?)\*", r"\1", line)` on a single line, as a
state machine: `some acc` means an opening `'*'` has been seen and `acc` is the
reversed inner text scanned so far (the non-greedy group); the closing star is
the next `'*'`.  An unmatched opening star is restored verbatim, which agrees
with `re.sub` because in that case the remainder of the line has no star at
all, hence no further match. -/
def pairSGo : Option Text → Text → Text
  | none, [] => []
  | some acc, [] => '*' :: acc.reverse
  | none, c :: rest =>
      if c = '*' then pairSGo (some []) rest else c :: pairSGo none rest
  | some acc, c :: rest =>
      if c = '*' then acc.reverse ++ pairSGo none rest
      else pairSGo (some (c :: acc)) rest

def pairStars (l : Text) : Text := pairSGo none l

/-- Scanner state for the double-star substitution. -/
inductive DState where
  | out : DState
  | outStar : DState
  | inner (acc : Text) : DState
  | innerStar (acc : Text) : DState

/-- One pass of `re.sub(r"\*\*(.*?)\*\*", r"\1", line)` on a single line.
`outStar` means the previous character was a `'*'` that may open a `"**"`;
`inner acc` means inside a match with reversed inner text `acc`; `innerStar acc`
means the previous character was a `'*'` that may close the match.  As above,
unmatched partial states are restored verbatim, which agrees with `re.sub`
because an absent closing `"**"` means no further match exists on the line. -/
def pairDGo : DState → Text → Text
  | .out, [] => []
  | .outStar, [] => ['*']
  | .inner acc, [] => '*' :: '*' :: acc.reverse
  | .innerStar acc, [] => '*' :: '*' :: acc.reverse ++ ['*']
  | .out, c :: rest =>
      if c = '*' then pairDGo .outStar rest else c :: pairDGo .out rest
  | .outStar, c :: rest =>
      if c = '*' then pairDGo (.inner []) rest
      else '*' :: c :: pairDGo .out rest
  | .inner acc, c :: rest =>
      if c = '*' then pairDGo (.innerStar acc) rest
      else pairDGo (.inner (c :: acc)) rest
  | .innerStar acc, c :: rest =>
      if c = '*' then acc.reverse ++ pairDGo .out rest
      else pairDGo (.inner (c :: '*' :: acc)) rest

def pairDouble (l : Text) : Text := pairDGo .out l

/-- The two markdown-emphasis substitutions of `clean_formatting`, applied to
the whole text.  Since `.` does not match `'\n'`, a match never crosses a
newline, so the substitutions act independently on each `'\n'`-separated
segment. -/
def starPhase (t : Text) : Text :=
  joinNL ((splitOnNL t).map (fun l => pairStars (pairDouble l)))

/-- The denylist character class `[#•●→✅🔹🔸📘📖📑📤📥⬇️🎉>]` (the `⬇️` glyph
contributes two code points, U+2B07 and the variation selector U+FE0F). -/
def symbolChars : List Char :=
  ['#', '\u2022', '\u25CF', '\u2192', '\u2705', '🔹', '🔸', '📘', '📖',
   '📑', '📤', '📥', '\u2B07', '\uFE0F', '🎉', '>']

def stripSymbols (t : Text) : Text :=
  t.filter (fun c => !(symbolChars.contains c))

/-- `re.sub(r"\r\n", "\n", text)`: one left-to-right pass, no reprocessing of
the replacement. -/
def subCRLF : Text → Text
  | [] => []
  | [c] => [c]
  | c :: d :: rest =>
      if c = '\r' ∧ d = '\n' then '\n' :: subCRLF rest
      else c :: subCRLF (d :: rest)

/-- `re.sub(r"[ \t]{2,}", " ", text)` as a state machine: `inRun` means we are
inside a run of length ≥ 2 that has already been replaced by a single `' '`. -/
def subSpacesGo (inRun : Bool) : Text → Text
  | [] => []
  | c :: rest =>
      if isST c then
        if inRun then subSpacesGo true rest
        else
          match rest with
          | [] => [c]
          | d :: _ => if isST d then ' ' :: subSpacesGo true rest
                      else c :: subSpacesGo false rest
      else c :: subSpacesGo false rest

def subSpaces (t : Text) : Text := subSpacesGo false t

/-- `re.sub(r"\n{3,}", "\n\n", text)` as a state machine: `inRun` means we are
inside a newline run of length ≥ 3 already replaced by `"\n\n"`. -/
def subNLGo (inRun : Bool) : Text → Text
  | [] => []
  | c :: rest =>
      if c = '\n' then
        if inRun then subNLGo true rest
        else
          match rest with
          | d :: e :: _ =>
              if d = '\n' ∧ e = '\n' then '\n' :: '\n' :: subNLGo true rest
              else c :: subNLGo false rest
          | _ => c :: subNLGo false rest
      else c :: subNLGo false rest

def subNewlines (t : Text) : Text := subNLGo false t

/-- `clean_formatting` (app.py:45): strip markdown emphasis, remove the symbol
denylist, normalise `\r\n`, collapse horizontal whitespace runs, collapse 3+
newlines to 2, and strip.  Empty input short-circuits to the empty string. -/
def clean_formatting (t : Text) : Text :=
  if t = [] then []
  else pyStrip (subNewlines (subSpaces (subCRLF (stripSymbols (starPhase t)))))

/-- The Python callers may hand `None` to `clean_formatting`; `if not text`
turns both `None` and `""` into `""`. -/
def clean_formatting_opt : Option Text → Text
  | none => []
  | some t => clean_formatting t

/-! ### Intro parser (`parse_preface_and_toc`, app.py:80) -/

/-- Case-insensitive (ASCII) prefix test; `pat` is given in lower case. -/
def startsWithCI (pat l : Text) : Bool :=
  (l.take pat.length).map toLowerAscii == pat

/-- The literal marker searched for by `re.search(r"Table of Contents", raw,
re.IGNORECASE)`, in lower case. -/
def tocPat : Text := "table of contents".toList

/-- Leftmost index at which `pat` occurs case-insensitively, as `re.search`. -/
def findCIAux (pat : Text) : Text → Nat → Option Nat
  | [], i => if startsWithCI pat [] then some i else none
  | l@(_ :: r), i => if startsWithCI pat l then some i else findCIAux pat r (i + 1)

def findCI (pat t : Text) : Option Nat := findCIAux pat t 0

/-- Does the regex `(?i)(Chapter\s*1|1\.)` match at this position?  (`\s` may
cross a newline, faithful to the source pattern.) -/
def chapterStartHere (l : Text) : Bool :=
  (startsWithCI "chapter".toList l &&
    ((l.drop 7).dropWhile isSpaceRe).head? == some '1')
  || l.take 2 == ['1', '.']

/-- Scan for the leftmost line-start position (`(?m)^`: offset 0 or just after
a `'\n'`) where `chapterStartHere` holds, as `re.search(r"(?mi)^(Chapter\s*1|1\.)", raw)`. -/
def findChapterStartAux : Text → Nat → Bool → Option Nat
  | [], _, _ => none
  | l@(c :: r), i, atStart =>
      if atStart && chapterStartHere l then some i
      else findChapterStartAux r (i + 1) (c == '\n')

def findChapterStart (raw : Text) : Option Nat := findChapterStartAux raw 0 true

/-- `re.match(r"^\s*Table of Contents\s*$", line, re.IGNORECASE)`: the line is
the marker up to surrounding whitespace. -/
def isTocHeaderLine (l : Text) : Bool :=
  let r := l.dropWhile isSpaceRe
  startsWithCI tocPat r && (r.drop tocPat.length).all isSpaceRe

/-- Decimal digits of a natural number, Python `str(i)` for `i ≥ 0`. -/
def natToText (n : Nat) : Text := Nat.toDigits 10 n

/-- Python `str(i)` for an arbitrary integer. -/
def intToText : Int → Text
  | Int.ofNat m => natToText m
  | Int.negSucc m => '-' :: natToText (m + 1)

/-- The conservative default 7-chapter TOC placeholders
`"1. Chapter 1" … "7. Chapter 7"`. -/
def placeholderToc : List Text :=
  (List.range' 1 7).map (fun i => natToText i ++ ". Chapter ".toList ++ natToText i)

/-- `parse_preface_and_toc` (app.py:80): split raw model output into a preface
and a TOC line list.  Priority: the literal marker, then a line starting with
`Chapter 1`/`1.`, then the whole text as preface.  Non-empty TOC candidates are
split into lines, blank lines and repeated markers dropped; an empty candidate
is replaced by the 7 placeholders.  Everything is normalised on the way out. -/
def parse_preface_and_toc (raw : Text) : Text × List Text :=
  if raw = [] then ([], [])
  else
    let pieces : Text × Text :=
      match findCI tocPat raw with
      | some i => (pyStrip (raw.take i), pyStrip (raw.drop (i + tocPat.length)))
      | none =>
        match findChapterStart raw with
        | some i => (pyStrip (raw.take i), pyStrip (raw.drop i))
        | none => (pyStrip raw, [])
    let toc_lines : List Text :=
      if pieces.2 = [] then placeholderToc
      else (pySplitlines pieces.2).filterMap (fun line =>
        let s := pyStrip line
        if s = [] then none
        else if isTocHeaderLine s then none
        else some s)
    (clean_formatting pieces.1, toc_lines.map clean_formatting)

/-! ### Book model and completion gateway -/

/-- The in-memory store `book_data` (app.py:33).  `chapters` is the Python dict
`int -> str`, modelled as an association list with dict insert/lookup
semantics. -/
structure BookData where
  title : Text
  grade : Text
  author : Text
  developer : Text
  medium : Text
  toc : List Text
  chapters : List (Int × Text)
  preface : Text
deriving DecidableEq

/-- The initial `book_data` value. -/
def initialBook : BookData :=
  { title := [], grade := [], author := [],
    developer := "Najaf Ali Sharqi".toList, medium := "English".toList,
    toc := [], chapters := [], preface := [] }

/-- Dict insertion: overwrite an existing key in place, else append. -/
def dictInsert (k : Int) (v : Text) : List (Int × Text) → List (Int × Text)
  | [] => [(k, v)]
  | (j, w) :: rest =>
      if j = k then (j, v) :: rest else (j, w) :: dictInsert k v rest

/-- The completion gateway (`safe_model_call`, app.py:60): one synchronous call
mapping the prompt to completion text, or to the error message raised.  Both
the missing-credential `RuntimeError` and a wrapped upstream failure surface
here as the `Except.error` payload. -/
abbrev Gateway := Text → Except Text Text

/-! ### Chapter generation (`generate_chapter`, app.py:148) -/

/-- Strip a leading `^\s*\d+[\.\-\:]\s*` numbering prefix, first substitution
at app.py:164. -/
def stripNumPfx (l : Text) : Text :=
  let l1 := l.dropWhile isSpaceRe
  let ds := l1.takeWhile Char.isDigit
  if ds = [] then l
  else
    match l1.drop ds.length with
    | c :: rest =>
        if c = '.' || c = '-' || c = ':' then rest.dropWhile isSpaceRe else l
    | [] => l

/-- Strip a leading `(?i)^chapter\s*\d+[\.\-\:]*\s*` phrase, second
substitution at app.py:165. -/
def stripChapterPfx (l : Text) : Text :=
  if startsWithCI "chapter".toList l then
    let r := (l.drop 7).dropWhile isSpaceRe
    let ds := r.takeWhile Char.isDigit
    if ds = [] then l
    else ((r.drop ds.length).dropWhile
            (fun c => c = '.' || c = '-' || c = ':')).dropWhile isSpaceRe
  else l

/-- Chapter-title resolution (app.py:158-166): default `"Chapter {n}"`; when
`1 ≤ n ≤ len(toc)`, take `toc[n-1]`, strip the numbering prefix and a
`Chapter N` phrase, trim, and fall back to the default if empty. -/
def chapterTitle (bd : BookData) (n : Int) : Text :=
  let dflt := "Chapter ".toList ++ intToText n
  if 1 ≤ n ∧ n ≤ (bd.toc.length : Int) then
    let raw := bd.toc.getD (n - 1).toNat []
    let r := pyStrip (stripChapterPfx (stripNumPfx raw))
    if r = [] then dflt else r
  else dflt

/-- The chapter prompt f-string (app.py:168-184). -/
def chapterPrompt (bd : BookData) (n : Int) (title : Text) : Text :=
  "\nYou are an expert Pakistani textbook writer. Medium: ".toList ++ bd.medium ++
  ".\nWrite Chapter ".toList ++ intToText n ++ ": \"".toList ++ title ++
  "\" for the textbook titled \"".toList ++ bd.title ++
  "\" (Grade ".toList ++ bd.grade ++ ") by ".toList ++ bd.author ++
  ".\nStructure the chapter exactly with these sections (in this order):\n\n1. Student Learning Outcomes (5 to 7 short SLO statements).\n2. For each SLO, provide detailed content aligned to that SLO. For every concept include:\n   - What (definition in one or two sentences)\n   - Why (why it matters; one or two sentences)\n   - How (a simple step/example or classroom activity) — use at least one Pakistan-relevant example.\n3. Activities or short case studies (1–2) with instructions for students and teacher prompts.\n4. Glossary (key terms and brief definitions).\n5. Post-assessment: 10 MCQs (without answers). Make them beginner-level and relevant to Pakistan context.\n\nStyling notes: no markdown, no emojis. Use clear simple language for absolute beginners. Keep each section labeled (e.g., \"Student Learning Outcomes:\").\nReturn the whole chapter as plain text.\n".toList

/-- Result of one UI action: the displayed text, the updated store, and the
number of gateway invocations made. -/
structure ActionResult where
  text : Text
  state : BookData
  calls : Nat
deriving DecidableEq

/-- `generate_chapter` (app.py:148): return the cached chapter if present;
otherwise resolve the title, call the gateway, normalise and memoize the
result, or return an error string on failure without touching the store.
The UI passes the chapter number as an `int` state, so the `int(ch_num)`
conversion is the identity here. -/
def generate_chapter (gw : Gateway) (bd : BookData) (n : Int) : ActionResult :=
  match bd.chapters.lookup n with
  | some t => ⟨t, bd, 0⟩
  | none =>
    let title := chapterTitle bd n
    match gw (chapterPrompt bd n title) with
    | Except.ok raw =>
        let body := clean_formatting raw
        ⟨body, { bd with chapters := dictInsert n body bd.chapters }, 1⟩
    | Except.error e => ⟨"Error generating chapter: ".toList ++ e, bd, 1⟩

/-! ### Intro generation (`generate_book_intro`, app.py:118) -/

/-- The intro prompt f-string (app.py:127-135). -/
def introPrompt (title grade author medium : Text) : Text :=
  "\nYou are an expert Pakistani educational textbook author. Language/medium: ".toList ++
  medium ++
  ".\nWrite a formal Preface (APA 7th edition tone) and a clear Table of Contents for a beginner-level textbook titled \"".toList ++
  title ++ "\" for Grade ".toList ++ grade ++ ", authored by ".toList ++ author ++
  ".\nRequirements:\n- Preface: concise, formal, APA tone (do NOT include markdown or emojis).\n- Table of Contents: exactly 7 chapter titles, each short and appropriate for absolute beginners in Pakistan.\nReturn the Preface followed by a heading \x27Table of Contents\x27 and then the 7 lines of TOC.\nDo NOT produce chapter bodies.\n".toList

/-- `generate_book_intro` (app.py:118): normalise the parameters, overwrite the
metadata fields of the store *before* the gateway call, then on success parse
preface and TOC, store them, clear `chapters`, and return the display text; on
failure return an error string (the metadata overwrite persists). -/
def generate_book_intro (gw : Gateway) (bd : BookData)
    (title grade author medium : Text) : ActionResult :=
  let title := pyStrip title
  let grade := pyStrip grade
  let author := pyStrip author
  let medium := if medium = [] then "English".toList else medium
  let bd1 := { bd with title := title, grade := grade,
                       author := author, medium := medium }
  match gw (introPrompt title grade author medium) with
  | Except.ok raw =>
      let parsed := parse_preface_and_toc raw
      let bd2 := { bd1 with preface := parsed.1, toc := parsed.2, chapters := [] }
      ⟨"Preface:\n\n".toList ++ parsed.1 ++
        "\n\nTable of Contents:\n\n".toList ++ joinNL parsed.2, bd2, 1⟩
  | Except.error e => ⟨"Error generating book intro: ".toList ++ e, bd1, 1⟩

/-! ### Bulk generation (`generate_all_chapters`, app.py:194) -/

/-- The two log entries one loop iteration appends: the progress line and the
preview truncated to 1000 characters (with an ellipsis when truncated). -/
def chapterLogEntries (i : Nat) (chText : Text) : List Text :=
  [ "Generating Chapter ".toList ++ natToText i ++ "...".toList,
    chText.take 1000 ++ (if 1000 < chText.length then "...".toList else []) ]

/-- The loop of `generate_all_chapters` over an explicit list of chapter
numbers, threading the store and counting gateway calls. -/
def genAllOver (gw : Gateway) (bd : BookData) : List Nat → List Text × BookData × Nat
  | [] => ([], bd, 0)
  | i :: is =>
      let r := generate_chapter gw bd (Int.ofNat i)
      let rest := genAllOver gw r.state is
      (chapterLogEntries i r.text ++ rest.1, rest.2.1, r.calls + rest.2.2)

/-- `generate_all_chapters` (app.py:194): iterate `for i in range(1, total+1)`
with `total = max(1, len(toc))`, reusing `generate_chapter`, and join the log
entries with blank lines. -/
def generate_all_chapters (gw : Gateway) (bd : BookData) : ActionResult :=
  let total := max 1 bd.toc.length
  let r := genAllOver gw bd (List.range' 1 total)
  ⟨joinWith "\n\n".toList r.1, r.2.1, r.2.2⟩

/-! ### Document assembler (`export_book_word` app.py:264, `export_book_pdf` app.py:317) -/

/-- The alternatives of the section-header regex at app.py:304, lower case. -/
def headingKeywords : List Text :=
  ["student learning outcomes".toList, "activities".toList, "assessment".toList,
   "glossary".toList, "post-assessment".toList, "activities or case studies".toList]

/-- `re.match(r"(?i)^(student learning outcomes|activities|assessment|glossary|post-assessment|activities or case studies)\b", s)`:
the stripped line starts case-insensitively with one of the keywords, followed
by a word boundary (end of line or a non-word character). -/
def isSectionHeading (s : Text) : Bool :=
  headingKeywords.any (fun k =>
    startsWithCI k s &&
    (match s.drop k.length with
     | [] => true
     | c :: _ => !isWordChar c))

/-- One paragraph of the Word document: text, point size, bold flag, centred
flag (left-aligned otherwise); or a page break or the TOC field. -/
inductive DocItem where
  | para (text : Text) (size : Nat) (bold : Bool) (center : Bool)
  | pageBreak
  | tocField
deriving DecidableEq

/-- One flowable of the PDF story: a paragraph in one of the three styles
(`Normal` Times-Roman 12, `Sub` Times-Bold 12, `HCenter` Times-Bold 18), a
spacer, or a page break. -/
inductive PdfStyle where
  | normal
  | sub
  | hcenter
deriving DecidableEq

/-- Whether a PDF style uses the bold face (`Times-Bold`). -/
def pdfStyleBold : PdfStyle → Bool
  | .normal => false
  | .sub => true
  | .hcenter => true

inductive PdfItem where
  | para (text : Text) (style : PdfStyle)
  | spacer
  | pageBreak
deriving DecidableEq

/-- The body-line loop of the Word chapter section (app.py:299-307): split the
chapter text into lines, skip blank ones, and render each stripped line
left-aligned at 12pt, bold exactly when the section-header regex matches. -/
def renderChapterBodyWord (body : Text) : List DocItem :=
  (pySplitlines body).filterMap (fun line =>
    let s := pyStrip line
    if s = [] then none
    else some (DocItem.para s 12 (isSectionHeading s) false))

/-- The body-line loop of the PDF chapter section (app.py:351-354): split into
lines, skip blank ones, and render every stripped line in the `Normal` style —
no section-heading classification is applied here. -/
def renderChapterBodyPdf (body : Text) : List PdfItem :=
  (pySplitlines body).filterMap (fun line =>
    if pyStrip line = [] then none
    else some (PdfItem.para (pyStrip line) PdfStyle.normal))

/-- Ascending-sorted chapter keys, `sorted(book_data["chapters"].keys())`. -/
def insertAsc (n : Int) : List Int → List Int
  | [] => [n]
  | m :: rest => if n ≤ m then n :: m :: rest else m :: insertAsc n rest

def sortedChapterKeys (bd : BookData) : List Int :=
  (bd.chapters.map Prod.fst).foldr insertAsc []

/-- Chapter heading line used by both exports (app.py:295, app.py:349): the raw
TOC entry when `0 ≤ num-1 < len(toc)`, else `"Chapter {num}"`. -/
def exportTitleLine (bd : BookData) (n : Int) : Text :=
  if 0 ≤ n - 1 ∧ n - 1 < (bd.toc.length : Int) then bd.toc.getD (n - 1).toNat []
  else "Chapter ".toList ++ intToText n

/-- The chapter section of the Word export for one chapter number. -/
def wordChapterSection (bd : BookData) (n : Int) : List DocItem :=
  DocItem.para (exportTitleLine bd n) 12 true true ::
    renderChapterBodyWord ((bd.chapters.lookup n).getD []) ++ [DocItem.pageBreak]

/-- The full Word document built by `export_book_word` (app.py:264), with the
generation date passed in explicitly. -/
def export_book_word (bd : BookData) (today : Text) : List DocItem :=
  [DocItem.para bd.developer 12 true true,
   DocItem.para bd.title 18 true true,
   DocItem.para ("Grade: ".toList ++ bd.grade) 12 false true,
   DocItem.para ("Author: ".toList ++ bd.author) 12 false true,
   DocItem.para ("Developed by: ".toList ++ bd.developer) 12 false true,
   DocItem.para ("Date: ".toList ++ today) 12 false true,
   DocItem.pageBreak,
   DocItem.para "Preface".toList 12 true true,
   DocItem.para bd.preface 12 false false,
   DocItem.pageBreak,
   DocItem.para "Table of Contents".toList 12 true true,
   DocItem.tocField,
   DocItem.pageBreak] ++
  (sortedChapterKeys bd).flatMap (wordChapterSection bd)

/-- The chapter section of the PDF export for one chapter number. -/
def pdfChapterSection (bd : BookData) (n : Int) : List PdfItem :=
  PdfItem.para (exportTitleLine bd n) PdfStyle.sub ::
    renderChapterBodyPdf ((bd.chapters.lookup n).getD []) ++ [PdfItem.pageBreak]

/-- The full PDF story built by `export_book_pdf` (app.py:317). -/
def export_book_pdf (bd : BookData) (today : Text) : List PdfItem :=
  [PdfItem.para bd.developer PdfStyle.sub,
   PdfItem.para bd.title PdfStyle.hcenter,
   PdfItem.spacer,
   PdfItem.para ("Grade: ".toList ++ bd.grade) PdfStyle.normal,
   PdfItem.para ("Author: ".toList ++ bd.author) PdfStyle.normal,
   PdfItem.para ("Date: ".toList ++ today) PdfStyle.normal,
   PdfItem.pageBreak,
   PdfItem.para "Preface".toList PdfStyle.sub,
   PdfItem.para bd.preface PdfStyle.normal,
   PdfItem.pageBreak,
   PdfItem.para "Table of Contents (open the Word .docx to get page-numbered TOC)".toList PdfStyle.sub]
  ++ bd.toc.map (fun line => PdfItem.para line PdfStyle.normal)
  ++ [PdfItem.pageBreak]
  ++ (sortedChapterKeys bd).flatMap (pdfChapterSection bd)

/-! ### Auxiliary predicates used by the normaliser theorems -/

/-- After-state scan: no two `'*'` on the same `'\n'`-separated line.  `seen`
records whether a star has already occurred on the current line. -/
def starsSepAux (seen : Bool) : Text → Bool
  | [] => true
  | c :: r =>
      if c = '\n' then starsSepAux false r
      else if c = '*' then !seen && starsSepAux true r
      else starsSepAux seen r

def starsSep (t : Text) : Bool := starsSepAux false t

/-- No two adjacent `[ \t]` characters; `prevST` records whether the previous
character was one. -/
def noSTAux (prevST : Bool) : Text → Bool
  | [] => true
  | c :: r => if isST c then !prevST && noSTAux true r else noSTAux false r

def noSTPair (t : Text) : Bool := noSTAux false t

/-- No three consecutive `'\n'`; `k` counts the immediately preceding newlines
(capped at 2). -/
def noNL3Aux (k : Nat) : Text → Bool
  | [] => true
  | c :: r => if c = '\n' then decide (k < 2) && noNL3Aux (k + 1) r else noNL3Aux 0 r

def noNL3 (t : Text) : Bool := noNL3Aux 0 t

/-- Text of a Word paragraph item (empty for breaks/fields). -/
def docItemText : DocItem → Text
  | .para t _ _ _ => t
  | _ => []

/-- Bold flag of a Word paragraph item. -/
def docItemBold : DocItem → Bool
  | .para _ _ b _ => b
  | _ => false

/-- Text of a PDF paragraph item. -/
def pdfItemText : PdfItem → Text
  | .para t _ => t
  | _ => []

/-- Sample store with a cached chapter 2. -/
def bdCached : BookData :=
  { initialBook with chapters := [(2, "hello".toList)] }

/-- Sample store whose TOC has a single entry. -/
def bdShortToc : BookData :=
  { initialBook with toc := ["1. Intro".toList] }

/-- Sample store exercising every clause of title resolution. -/
def bdTitles : BookData :=
  { initialBook with
      toc := ["1. Intro".toList, "2. Basic Computer Parts".toList, [], [],
              "Chapter 5: Fractions".toList, "4.".toList,
              "3. Chapter 3: Algebra".toList] }

/-! ### Theorems -/

/-- Dict insertion stores the value under its key. -/
theorem lookup_dictInsert (l : List (Int × Text)) (k : Int) (v : Text) :
    (dictInsert k v l).lookup k = some v := by
  induction l with
  | nil => simp [dictInsert, List.lookup]
  | cons p rest ih =>
      obtain ⟨j, w⟩ := p
      by_cases h : j = k
      · simp [dictInsert, h, List.lookup]
      · have hb : (k == j) = false := by
          simp [beq_iff_eq]
          exact fun hh => h hh.symm
        simp [dictInsert, h, List.lookup, hb, ih]

/-- An uncached chapter number always triggers exactly one gateway call. -/
theorem generate_chapter_calls_uncached (gw : Gateway) (bd : BookData) (n : Int)
    (h : bd.chapters.lookup n = none) : (generate_chapter gw bd n).calls = 1 := by
  unfold generate_chapter
  rw [h]
  cases hg : gw (chapterPrompt bd n (chapterTitle bd n)) <;> simp [hg]

/-- Claim C3 (confirmed): when the gateway call during chapter generation fails,
`generate_chapter` returns the error string, leaves the store unchanged (no
entry for `n` is added), and a subsequent call for `n` re-attempts generation
(invokes the gateway again). -/
theorem generate_chapter_failure (bd : BookData) (n : Int) (e : Text) (gw2 : Gateway)
    (h : bd.chapters.lookup n = none) :
    generate_chapter (fun _ => Except.error e) bd n
      = ⟨"Error generating chapter: ".toList ++ e, bd, 1⟩ ∧
    (generate_chapter gw2 ((generate_chapter (fun _ => Except.error e) bd n).state) n).calls = 1 := by
  have h1 : generate_chapter (fun _ => Except.error e) bd n
      = ⟨"Error generating chapter: ".toList ++ e, bd, 1⟩ := by
    simp [generate_chapter, h]
  refine ⟨h1, ?_⟩
  rw [h1]
  exact generate_chapter_calls_uncached gw2 bd n h

/-- Claim C4 (confirmed): after a successful intro generation, for any
parameters, the chapters mapping is empty and a subsequent generation for
chapter 1 invokes the gateway again. -/
theorem generate_book_intro_clears (raw : Text) (bd : BookData)
    (title grade author medium : Text) (gw2 : Gateway) :
    (generate_book_intro (fun _ => Except.ok raw) bd title grade author medium).state.chapters = [] ∧
    (generate_chapter gw2
        (generate_book_intro (fun _ => Except.ok raw) bd title grade author medium).state 1).calls = 1 := by
  refine ⟨rfl, ?_⟩
  apply generate_chapter_calls_uncached
  rfl

/-- Claim C6 (confirmed): chapter-title resolution strips a leading numeric
prefix and a leading `Chapter N` phrase and trims; `"2. Basic Computer
Parts"` resolves to `"Basic Computer Parts"`, `"Chapter 5: Fractions"` to
`"Fractions"`, a combined prefix is stripped twice, an empty remainder and an
out-of-range number fall back to `"Chapter {n}"`. -/
theorem chapterTitle_resolution :
    chapterTitle bdTitles 2 = "Basic Computer Parts".toList ∧
    chapterTitle bdTitles 5 = "Fractions".toList ∧
    chapterTitle bdTitles 7 = "Algebra".toList ∧
    chapterTitle bdTitles 6 = "Chapter 6".toList ∧
    chapterTitle bdTitles 9 = "Chapter 9".toList := by decide

/-- Counterexample to C9: with a one-entry TOC, a successful generation for
number 5 stores a chapter entry under key 5, which is outside `1..len(toc)`. -/
theorem chapters_out_of_range_ctr :
    ((generate_chapter (fun _ => Except.ok "body".toList) bdShortToc 5).state.chapters.lookup 5
      = some "body".toList) ∧ ¬(1 ≤ (5 : Int) ∧ (5 : Int) ≤ (bdShortToc.toc.length : Int)) := by decide

/-- Claim C9 (corrected): a successful chapter generation stores the
normalised text under exactly the requested key `n`, whether or not `n` lies
in `1..len(toc)`; the code does not restrict stored keys to the TOC range. -/
theorem generate_chapter_stores_any_key (bd : BookData) (n : Int) (raw : Text)
    (h : bd.chapters.lookup n = none) :
    ((generate_chapter (fun _ => Except.ok raw) bd n).state.chapters.lookup n)
      = some (clean_formatting raw) := by
  simp [generate_chapter, h, lookup_dictInsert]

/-- Counterexample to C1: the body line `"Glossary"` is rendered bold by the
office-document renderer but with the plain `Normal` style by the PDF
renderer, so the two renderers do not apply the same classification. -/
theorem renderers_disagree_ctr :
    renderChapterBodyWord "Glossary".toList
      = [DocItem.para "Glossary".toList 12 true false] ∧
    renderChapterBodyPdf "Glossary".toList
      = [PdfItem.para "Glossary".toList PdfStyle.normal] ∧
    pdfStyleBold PdfStyle.normal = false ∧
    isSectionHeading "Glossary".toList = true := by decide

/-- Claim C1 (corrected): both renderers emit the same sequence of non-blank
stripped body lines, and the office-document renderer bolds a line exactly
when the section-heading keyword rule matches, but the PDF renderer renders
every body line in the non-bold `Normal` style: the heading classification is
applied only in the office-document renderer. -/
theorem renderers_classification (body : Text) :
    (renderChapterBodyWord body).map docItemText = (renderChapterBodyPdf body).map pdfItemText ∧
    (∀ it ∈ renderChapterBodyWord body, docItemBold it = isSectionHeading (docItemText it)) ∧
    (∀ it ∈ renderChapterBodyPdf body, it = PdfItem.para (pdfItemText it) PdfStyle.normal) := by
  unfold renderChapterBodyWord renderChapterBodyPdf
  generalize pySplitlines body = ls
  induction ls with
  | nil => simp
  | cons a ls ih =>
      by_cases h : pyStrip a = []
      · simpa [h] using ih
      · refine ⟨?_, ?_, ?_⟩
        · simpa [h, docItemText, pdfItemText] using ih.1
        · intro it hit
          rw [List.filterMap_cons] at hit
          simp only [h, if_neg] at hit
          rcases List.mem_cons.mp hit with h1 | h1
          · subst h1; simp [docItemText, docItemBold]
          · exact ih.2.1 it h1
        · intro it hit
          rw [List.filterMap_cons] at hit
          simp only [h, if_neg] at hit
          rcases List.mem_cons.mp hit with h1 | h1
          · subst h1; simp [pdfItemText]
          · exact ih.2.2 it h1

/-- Dict insertion leaves other keys unchanged. -/
theorem lookup_dictInsert_ne (l : List (Int × Text)) (k m : Int) (v : Text) (h : m ≠ k) :
    (dictInsert k v l).lookup m = l.lookup m := by
  have hb : (m == k) = false := beq_eq_false_iff_ne.mpr h
  induction l with
  | nil => simp [dictInsert, List.lookup, hb]
  | cons p rest ih =>
      obtain ⟨j, w⟩ := p
      by_cases hj : j = k
      · subst hj
        simp [dictInsert, List.lookup, hb]
      · simp [dictInsert, hj, List.lookup, ih]

/-- `generate_chapter` never touches entries of other chapter numbers. -/
theorem generate_chapter_lookup_other (gw : Gateway) (bd : BookData) (n m : Int) (h : m ≠ n) :
    (generate_chapter gw bd n).state.chapters.lookup m = bd.chapters.lookup m := by
  unfold generate_chapter
  cases hl : bd.chapters.lookup n
  · cases hg : gw (chapterPrompt bd n (chapterTitle bd n)) <;>
      simp [hg, lookup_dictInsert_ne _ _ _ _ h]
  · simp

/-- A successful `generate_chapter` leaves an entry under the requested number. -/
theorem generate_chapter_lookup_self_ok (raw : Text) (bd : BookData) (n : Int) :
    (generate_chapter (fun _ => Except.ok raw) bd n).state.chapters.lookup n ≠ none := by
  unfold generate_chapter
  cases hl : bd.chapters.lookup n
  · simp [lookup_dictInsert]
  · simp [hl]

/-- One `generate_chapter` call invokes the gateway at most once. -/
theorem generate_chapter_calls_le_one (gw : Gateway) (bd : BookData) (n : Int) :
    (generate_chapter gw bd n).calls ≤ 1 := by
  unfold generate_chapter
  cases hl : bd.chapters.lookup n
  · cases hg : gw (chapterPrompt bd n (chapterTitle bd n)) <;> simp [hg]
  · simp

/-- The bulk loop logs exactly two entries per visited chapter number. -/
theorem genAllOver_log_length (gw : Gateway) : ∀ (is : List Nat) (bd : BookData),
    (genAllOver gw bd is).1.length = 2 * is.length := by
  intro is
  induction is with
  | nil => intro bd; simp [genAllOver]
  | cons i is ih =>
      intro bd
      simp [genAllOver, chapterLogEntries, ih]
      omega

/-- The bulk loop makes at most one gateway call per visited number. -/
theorem genAllOver_calls_le (gw : Gateway) : ∀ (is : List Nat) (bd : BookData),
    (genAllOver gw bd is).2.2 ≤ is.length := by
  intro is
  induction is with
  | nil => intro bd; simp [genAllOver]
  | cons i is ih =>
      intro bd
      simp only [genAllOver, List.length_cons]
      have h1 := generate_chapter_calls_le_one gw bd (Int.ofNat i)
      have h2 := ih (generate_chapter gw bd (Int.ofNat i)).state
      omega

/-- The bulk loop does not touch chapters outside its visit list. -/
theorem genAllOver_lookup_outside (gw : Gateway) : ∀ (is : List Nat) (bd : BookData) (m : Int),
    (∀ k ∈ is, m ≠ Int.ofNat k) →
    (genAllOver gw bd is).2.1.chapters.lookup m = bd.chapters.lookup m := by
  intro is
  induction is with
  | nil => intro bd m _; rfl
  | cons i is ih =>
      intro bd m hm
      simp only [genAllOver]
      rw [ih _ _ (fun k hk => hm k (List.mem_cons_of_mem _ hk))]
      exact generate_chapter_lookup_other gw bd _ m (hm i (List.mem_cons_self _ _))

/-- With a successful gateway, every visited number ends up cached. -/
theorem genAllOver_lookup_visited (raw : Text) : ∀ (is : List Nat) (bd : BookData) (k : Nat),
    k ∈ is →
    (genAllOver (fun _ => Except.ok raw) bd is).2.1.chapters.lookup (Int.ofNat k) ≠ none := by
  intro is
  induction is with
  | nil => intro bd k hk; cases hk
  | cons i is ih =>
      intro bd k hk
      rcases List.mem_cons.mp hk with h1 | h1
      · subst h1
        by_cases hmem : k ∈ is
        · exact ih _ _ hmem
        · simp only [genAllOver]
          rw [genAllOver_lookup_outside _ _ _ _ (fun j hj => by
            intro he
            exact hmem ((Int.ofNat.inj he) ▸ hj))]
          exact generate_chapter_lookup_self_ok raw bd _
      · exact ih _ _ h1

/-- Counterexample to C8: with an empty TOC the bulk operation still attempts
chapter 1 (one gateway call and a progress entry), although `1..len(toc)` is
empty. -/
theorem generate_all_empty_toc_ctr :
    (generate_all_chapters (fun _ => Except.error "boom".toList) initialBook).calls = 1 ∧
    initialBook.toc.length = 0 ∧
    (generate_all_chapters (fun _ => Except.error "boom".toList) initialBook).text
      = "Generating Chapter 1...\n\nError generating chapter: boom".toList := by decide

/-- Claim C8 (corrected): the bulk operation generates exactly chapters
`1..max(1, len(toc))` in ascending order, reusing `generate_chapter` and its
cache: the log has two entries (progress plus 1000-character preview) per
chapter, afterwards every number in that range is cached, no other key of the
store changes, and at most one gateway call is made per chapter. -/
theorem generate_all_chapters_amended (raw : Text) (bd : BookData) :
    ((genAllOver (fun _ => Except.ok raw) bd (List.range' 1 (max 1 bd.toc.length))).1.length
        = 2 * max 1 bd.toc.length) ∧
    (∀ k : Nat, 1 ≤ k → k ≤ max 1 bd.toc.length →
      (generate_all_chapters (fun _ => Except.ok raw) bd).state.chapters.lookup (Int.ofNat k) ≠ none) ∧
    (∀ m : Int,
      (generate_all_chapters (fun _ => Except.ok raw) bd).state.chapters.lookup m ≠ bd.chapters.lookup m →
      ∃ k, k ∈ List.range' 1 (max 1 bd.toc.length) ∧ m = Int.ofNat k) ∧
    (generate_all_chapters (fun _ => Except.ok raw) bd).calls ≤ max 1 bd.toc.length := by
  refine ⟨by rw [genAllOver_log_length]; simp, ?_, ?_, ?_⟩
  · intro k h1 h2
    have hk : k ∈ List.range' 1 (max 1 bd.toc.length) := by
      rw [List.mem_range'_1]
      omega
    exact genAllOver_lookup_visited raw _ bd k hk
  · intro m hm
    by_contra hcon
    push_neg at hcon
    apply hm
    apply genAllOver_lookup_outside
    intro k hk
    exact fun he => (hcon k hk) he
  · have := genAllOver_calls_le (fun _ => Except.ok raw) (List.range' 1 (max 1 bd.toc.length)) bd
    simpa [generate_all_chapters] using this

/-- Counterexample to C5: a text whose TOC candidate consists only of repeated
`"Table of Contents"` headers parses to an *empty* TOC, not to the 7
placeholders; the empty input also parses to an empty TOC. -/
theorem parse_empty_toc_ctr :
    (parse_preface_and_toc "X\nTable of Contents\nTable of Contents".toList).2 = [] ∧
    (parse_preface_and_toc "X\nTable of Contents\nTable of Contents".toList).2 ≠ placeholderToc ∧
    (parse_preface_and_toc ([] : Text)).2 = [] := by decide

/-- Claim C5 (corrected): for nonempty raw text containing neither the
`"Table of Contents"` marker nor a line starting with `Chapter 1` or `1.`,
the parser returns exactly the 7 placeholder TOC entries. -/
theorem parse_fallback_placeholders (raw : Text) (h0 : raw ≠ [])
    (h1 : findCI tocPat raw = none) (h2 : findChapterStart raw = none) :
    (parse_preface_and_toc raw).2 = placeholderToc := by
  unfold parse_preface_and_toc
  rw [if_neg h0]
  simp only [h1, h2]
  have hmap : placeholderToc.map clean_formatting = placeholderToc := by decide
  simpa using hmap

/-- Claim C2 (confirmed): if chapter `n` is already present in the store,
`generate_chapter` returns the cached text with zero gateway calls and an
unchanged store, and a second call returns the byte-identical text again, so
the gateway is invoked at most once (in fact never) for that number. -/
theorem generate_chapter_cached (gw gw2 : Gateway) (bd : BookData) (n : Int) (t : Text)
    (h : bd.chapters.lookup n = some t) :
    generate_chapter gw bd n = ⟨t, bd, 0⟩ ∧
    generate_chapter gw2 (generate_chapter gw bd n).state n = ⟨t, bd, 0⟩ := by
  have h1 : generate_chapter gw bd n = ⟨t, bd, 0⟩ := by
    simp [generate_chapter, h]
  refine ⟨h1, ?_⟩
  rw [h1]
  simp [generate_chapter, h]

/-- Claim C10 (confirmed): when the gateway call inside intro generation
fails, the operation returns an error string and leaves `preface`, `toc` and
`chapters` unchanged, but `title`, `grade`, `author` and `medium` have already
been overwritten with the (normalised) new parameters: intro generation is not
atomic over the metadata fields. -/
theorem generate_book_intro_failure_frame (bd : BookData) (title grade author medium e : Text) :
    generate_book_intro (fun _ => Except.error e) bd title grade author medium
      = ⟨"Error generating book intro: ".toList ++ e,
         { bd with title := pyStrip title, grade := pyStrip grade, author := pyStrip author,
                   medium := if medium = [] then "English".toList else medium }, 1⟩ := rfl

/-- Witness for C2 at a concrete cached store. -/
theorem generate_chapter_cached_witness :
    bdCached.chapters.lookup 2 = some "hello".toList ∧
    (generate_chapter (fun _ => Except.error "e".toList) bdCached 2 = ⟨"hello".toList, bdCached, 0⟩ ∧
     generate_chapter (fun _ => Except.ok "x".toList)
       (generate_chapter (fun _ => Except.error "e".toList) bdCached 2).state 2
       = ⟨"hello".toList, bdCached, 0⟩) :=
  ⟨by decide, generate_chapter_cached _ _ bdCached 2 _ (by decide)⟩

/-- Witness for C3 at a concrete store and error. -/
theorem generate_chapter_failure_witness :
    initialBook.chapters.lookup 1 = none ∧
    (generate_chapter (fun _ => Except.error "net down".toList) initialBook 1
        = ⟨"Error generating chapter: net down".toList, initialBook, 1⟩ ∧
     (generate_chapter (fun _ => Except.ok "x".toList)
        ((generate_chapter (fun _ => Except.error "net down".toList) initialBook 1).state) 1).calls = 1) :=
  ⟨by decide, generate_chapter_failure initialBook 1 "net down".toList _ (by decide)⟩

/-- Witness for the amended C9 at a concrete out-of-range number. -/
theorem generate_chapter_stores_any_key_witness :
    bdShortToc.chapters.lookup 9 = none ∧
    ((generate_chapter (fun _ => Except.ok "body".toList) bdShortToc 9).state.chapters.lookup 9
      = some (clean_formatting "body".toList)) :=
  ⟨by decide, generate_chapter_stores_any_key bdShortToc 9 "body".toList (by decide)⟩

/-- Witness for the amended C5 at a concrete marker-free text. -/
theorem parse_fallback_placeholders_witness :
    ("hello world".toList ≠ ([] : Text) ∧
     findCI tocPat "hello world".toList = none ∧
     findChapterStart "hello world".toList = none) ∧
    (parse_preface_and_toc "hello world".toList).2 = placeholderToc :=
  ⟨by decide, parse_fallback_placeholders "hello world".toList (by decide) (by decide) (by decide)⟩

/-- Witness for the amended C8 at a concrete store. -/
theorem generate_all_chapters_amended_witness :
    (generate_all_chapters (fun _ => Except.ok "ch".toList) bdShortToc).state.chapters.lookup
      (Int.ofNat 1) ≠ none :=
  (generate_all_chapters_amended "ch".toList bdShortToc).2.1 1 (by decide) (by decide)

/-- Witness for the amended C1 at a concrete chapter body. -/
theorem renderers_classification_witness :
    docItemBold (DocItem.para "Glossary".toList 12 true false)
      = isSectionHeading (docItemText (DocItem.para "Glossary".toList 12 true false)) :=
  (renderers_classification "Glossary\nsome text".toList).2.1 _ (by decide)

/-! ### Normaliser lemmas -/

theorem head_dropWhile_false (p : Char → Bool) :
    ∀ (l : Text) (c : Char), (l.dropWhile p).head? = some c → p c = false := by
  intro l
  induction l with
  | nil => intro c h; simp [List.dropWhile] at h
  | cons a r ih =>
      intro c h
      by_cases hp : p a
      · rw [List.dropWhile_cons_of_pos hp] at h
        exact ih c h
      · rw [List.dropWhile_cons_of_neg hp] at h
        simp at h
        rw [h] at hp
        simpa using hp

theorem dropWhile_eq_self_of_head (p : Char → Bool) (l : Text)
    (h : ∀ c, l.head? = some c → p c = false) : l.dropWhile p = l := by
  cases l with
  | nil => rfl
  | cons a r => rw [List.dropWhile_cons_of_neg]; simp [h a rfl]

theorem mem_dropWhile (p : Char → Bool) :
    ∀ (l : Text) (c : Char), c ∈ l.dropWhile p → c ∈ l := by
  intro l
  induction l with
  | nil => intro c h; simp at h
  | cons a r ih =>
      intro c h
      by_cases hp : p a
      · rw [List.dropWhile_cons_of_pos hp] at h
        exact List.mem_cons_of_mem _ (ih c h)
      · rwa [List.dropWhile_cons_of_neg hp] at h

theorem mem_pyStrip (l : Text) (c : Char) (h : c ∈ pyStrip l) : c ∈ l := by
  unfold pyStrip at h
  rw [List.mem_reverse] at h
  have h2 := mem_dropWhile _ _ _ h
  rw [List.mem_reverse] at h2
  exact mem_dropWhile _ _ _ h2

theorem countStar_append : ∀ (a b : Text), countStar (a ++ b) = countStar a + countStar b := by
  intro a b
  induction a with
  | nil => simp [countStar]
  | cons c r ih => simp [countStar, ih]; omega

theorem countStar_reverse : ∀ l : Text, countStar l.reverse = countStar l := by
  intro l
  induction l with
  | nil => rfl
  | cons c r ih =>
      simp [List.reverse_cons, countStar_append, countStar, ih]
      omega

theorem countStar_eq_zero_iff : ∀ l : Text, countStar l = 0 ↔ '*' ∉ l := by
  intro l
  induction l with
  | nil => simp [countStar]
  | cons c r ih =>
      by_cases hc : c = '*'
      · subst hc; simp [countStar]
      · simp [countStar, hc, ih, Ne.symm hc]

theorem append_head_of_ne_nil (a b : Text) (h : a ≠ []) : (a ++ b).head? = a.head? := by
  cases a with
  | nil => exact absurd rfl h
  | cons c r => rfl

theorem text_decomp (p : Char → Bool) (l : Text) :
    l = (l.reverse.dropWhile p).reverse ++ (l.reverse.takeWhile p).reverse := by
  have h := (List.takeWhile_append_dropWhile (p := p) (l := l.reverse)).symm
  calc l = l.reverse.reverse := by rw [List.reverse_reverse]
    _ = (l.reverse.takeWhile p ++ l.reverse.dropWhile p).reverse := by rw [← h]
    _ = (l.reverse.dropWhile p).reverse ++ (l.reverse.takeWhile p).reverse := by
          rw [List.reverse_append]

theorem pyStrip_idem (l : Text) : pyStrip (pyStrip l) = pyStrip l := by
  by_cases hnil : pyStrip l = []
  · rw [hnil]; rfl
  · unfold pyStrip
    set m := l.dropWhile isSpaceRe with hm
    have hy : pyStrip l = (m.reverse.dropWhile isSpaceRe).reverse := rfl
    rw [hy] at hnil
    set y := (m.reverse.dropWhile isSpaceRe).reverse with hydef
    have hydrop : y.dropWhile isSpaceRe = y := by
      apply dropWhile_eq_self_of_head
      intro c hc
      have hdecomp := text_decomp isSpaceRe m
      have hym : (y ++ (m.reverse.takeWhile isSpaceRe).reverse).head? = y.head? :=
        append_head_of_ne_nil _ _ hnil
      have hheads : m.head? = y.head? := by
        conv_lhs => rw [hdecomp]
        exact hym
      have hmc : m.head? = some c := by rw [hheads]; exact hc
      exact head_dropWhile_false isSpaceRe l c (hm ▸ hmc)
    rw [hydrop]
    have hyrev : y.reverse.dropWhile isSpaceRe = y.reverse := by
      apply dropWhile_eq_self_of_head
      intro c hc
      rw [hydef, List.reverse_reverse] at hc
      exact head_dropWhile_false isSpaceRe m.reverse c hc
    rw [hyrev, List.reverse_reverse]

-- ### starsSep lemmas

theorem ssa_mono : ∀ (l : Text) (s : Bool), starsSepAux s l = true → starsSepAux false l = true := by
  intro l
  induction l with
  | nil => intro s _; rfl
  | cons c r ih =>
      intro s h
      by_cases hnl : c = '\n'
      · rw [starsSepAux, if_pos hnl] at h ⊢; exact h
      · by_cases hst : c = '*'
        · rw [starsSepAux, if_neg hnl, if_pos hst] at h ⊢
          simp at h
          simp [h.2]
        · rw [starsSepAux, if_neg hnl, if_neg hst] at h ⊢
          exact ih s h

theorem ssa_append_left : ∀ (a b : Text) (s : Bool),
    starsSepAux s (a ++ b) = true → starsSepAux s a = true := by
  intro a
  induction a with
  | nil => intro b s _; rfl
  | cons c r ih =>
      intro b s h
      rw [List.cons_append] at h
      by_cases hnl : c = '\n'
      · rw [starsSepAux, if_pos hnl] at h ⊢; exact ih b false h
      · by_cases hst : c = '*'
        · rw [starsSepAux, if_neg hnl, if_pos hst] at h ⊢
          simp at h ⊢
          exact ⟨h.1, ih b true h.2⟩
        · rw [starsSepAux, if_neg hnl, if_neg hst] at h ⊢
          exact ih b s h

theorem ssa_dropWhile_ws : ∀ l : Text,
    starsSepAux false l = true → starsSepAux false (l.dropWhile isSpaceRe) = true := by
  intro l
  induction l with
  | nil => intro _; rfl
  | cons c r ih =>
      intro h
      by_cases hp : isSpaceRe c
      · rw [List.dropWhile_cons_of_pos hp]
        apply ih
        by_cases hnl : c = '\n'
        · rwa [starsSepAux, if_pos hnl] at h
        · have hst : c ≠ '*' := by
            intro he; subst he; simp [isSpaceRe] at hp
          rwa [starsSepAux, if_neg hnl, if_neg hst] at h
      · rwa [List.dropWhile_cons_of_neg hp]

theorem ssa_pyStrip (l : Text) (h : starsSepAux false l = true) :
    starsSepAux false (pyStrip l) = true := by
  unfold pyStrip
  set m := l.dropWhile isSpaceRe with hm
  have h1 : starsSepAux false m = true := ssa_dropWhile_ws l h
  have hdecomp := text_decomp isSpaceRe m
  apply ssa_append_left _ ((m.reverse.takeWhile isSpaceRe).reverse)
  rw [← hdecomp]
  exact h1

theorem ssa_filter (p : Char → Bool) (hs : p '*' = true) (hn : p '\n' = true) :
    ∀ (l : Text) (s : Bool), starsSepAux s l = true → starsSepAux s (l.filter p) = true := by
  intro l
  induction l with
  | nil => intro s _; rfl
  | cons c r ih =>
      intro s h
      by_cases hp : p c
      · rw [List.filter_cons_of_pos hp]
        by_cases hnl : c = '\n'
        · rw [starsSepAux, if_pos hnl] at h ⊢; exact ih false h
        · by_cases hst : c = '*'
          · rw [starsSepAux, if_neg hnl, if_pos hst] at h ⊢
            simp at h ⊢
            exact ⟨h.1, ih true h.2⟩
          · rw [starsSepAux, if_neg hnl, if_neg hst] at h ⊢
            exact ih s h
      · rw [List.filter_cons_of_neg hp]
        have hnl : c ≠ '\n' := fun he => hp (he ▸ hn)
        have hst : c ≠ '*' := fun he => hp (he ▸ hs)
        rw [starsSepAux, if_neg hnl, if_neg hst] at h
        exact ih s h

-- shape lemmas for the scanners

theorem subSpacesGo_cons_not (b : Bool) (c : Char) (r : Text) (hc : isST c = false) :
    subSpacesGo b (c :: r) = c :: subSpacesGo false r := by
  simp [subSpacesGo, hc]

theorem subSpacesGo_inrun (c : Char) (r : Text) (hc : isST c = true) :
    subSpacesGo true (c :: r) = subSpacesGo true r := by
  simp [subSpacesGo, hc]

theorem subSpacesGo_one (c : Char) (hc : isST c = true) :
    subSpacesGo false [c] = [c] := by
  simp [subSpacesGo, hc]

theorem subSpacesGo_run (c d : Char) (r2 : Text) (hc : isST c = true) (hd : isST d = true) :
    subSpacesGo false (c :: d :: r2) = ' ' :: subSpacesGo true (d :: r2) := by
  simp [subSpacesGo, hc, hd]

theorem subSpacesGo_single (c d : Char) (r2 : Text) (hc : isST c = true) (hd : isST d = false) :
    subSpacesGo false (c :: d :: r2) = c :: subSpacesGo false (d :: r2) := by
  simp [subSpacesGo, hc, hd]

theorem subNLGo_cons_not (b : Bool) (c : Char) (r : Text) (hc : ¬c = '\n') :
    subNLGo b (c :: r) = c :: subNLGo false r := by
  simp [subNLGo, hc]

theorem subNLGo_inrun (r : Text) :
    subNLGo true ('\n' :: r) = subNLGo true r := by
  simp [subNLGo]

theorem subNLGo_triple (r3 : Text) :
    subNLGo false ('\n' :: '\n' :: '\n' :: r3) = '\n' :: '\n' :: subNLGo true ('\n' :: '\n' :: r3) := by
  simp [subNLGo]

theorem subNLGo_keep (r : Text)
    (h : ∀ d e r3, r = d :: e :: r3 → ¬(d = '\n' ∧ e = '\n')) :
    subNLGo false ('\n' :: r) = '\n' :: subNLGo false r := by
  cases r with
  | nil => simp [subNLGo]
  | cons d r2 =>
      cases r2 with
      | nil => simp [subNLGo]
      | cons e r3 =>
          have hde := h d e r3 rfl
          simp [subNLGo, hde]

-- preservation of starsSep through the scanners

theorem ssa_subSpacesGo_pair : ∀ l : Text,
    (∀ s, starsSepAux s l = true → starsSepAux s (subSpacesGo false l) = true) ∧
    (∀ s, starsSepAux s l = true → starsSepAux s (subSpacesGo true l) = true) := by
  intro l
  induction l with
  | nil => exact ⟨fun s _ => rfl, fun s _ => rfl⟩
  | cons c r ih =>
      have hstate : ∀ (s : Bool) (X : Text), isST c = true →
          starsSepAux s (c :: X) = starsSepAux s X := by
        intro s X hc
        have hnl : ¬c = '\n' := by intro he; subst he; simp [isST] at hc
        have hst : ¬c = '*' := by intro he; subst he; simp [isST] at hc
        rw [starsSepAux, if_neg hnl, if_neg hst]
      constructor
      · intro s h
        by_cases hc : isST c
        · rw [hstate s r hc] at h
          cases r with
          | nil =>
              rw [subSpacesGo_one c hc]
              have hnl : ¬c = '\n' := by intro he; subst he; simp [isST] at hc
              have hst : ¬c = '*' := by intro he; subst he; simp [isST] at hc
              rw [starsSepAux, if_neg hnl, if_neg hst]
              rfl
          | cons d r2 =>
              by_cases hd : isST d
              · rw [subSpacesGo_run c d r2 hc hd]
                have : starsSepAux s (' ' :: subSpacesGo true (d :: r2))
                    = starsSepAux s (subSpacesGo true (d :: r2)) := by
                  rw [starsSepAux]
                  rw [if_neg (by decide), if_neg (by decide)]
                rw [this]
                exact ih.2 s h
              · rw [subSpacesGo_single c d r2 hc (by simpa using hd)]
                rw [hstate s _ hc]
                exact ih.1 s h
        · rw [subSpacesGo_cons_not false c r (by simpa using hc)]
          by_cases hnl : c = '\n'
          · rw [starsSepAux, if_pos hnl] at h ⊢
            exact ih.1 false h
          · by_cases hst : c = '*'
            · rw [starsSepAux, if_neg hnl, if_pos hst] at h ⊢
              simp only [Bool.and_eq_true] at h ⊢
              exact ⟨h.1, ih.1 true h.2⟩
            · rw [starsSepAux, if_neg hnl, if_neg hst] at h ⊢
              exact ih.1 s h
      · intro s h
        by_cases hc : isST c
        · rw [subSpacesGo_inrun c r hc]
          rw [hstate s r hc] at h
          exact ih.2 s h
        · rw [subSpacesGo_cons_not true c r (by simpa using hc)]
          by_cases hnl : c = '\n'
          · rw [starsSepAux, if_pos hnl] at h ⊢
            exact ih.1 false h
          · by_cases hst : c = '*'
            · rw [starsSepAux, if_neg hnl, if_pos hst] at h ⊢
              simp only [Bool.and_eq_true] at h ⊢
              exact ⟨h.1, ih.1 true h.2⟩
            · rw [starsSepAux, if_neg hnl, if_neg hst] at h ⊢
              exact ih.1 s h

theorem ssa_subNLGo_pair : ∀ l : Text,
    (∀ s, starsSepAux s l = true → starsSepAux s (subNLGo false l) = true) ∧
    (starsSepAux false l = true → starsSepAux false (subNLGo true l) = true) := by
  intro l
  induction l with
  | nil => exact ⟨fun s _ => rfl, fun _ => rfl⟩
  | cons c r ih =>
      constructor
      · intro s h
        by_cases hc : c = '\n'
        · subst hc
          have h' : starsSepAux false r = true := by
            rwa [starsSepAux, if_pos rfl] at h
          by_cases htrip : ∃ r3, r = '\n' :: '\n' :: r3
          · obtain ⟨r3, hr3⟩ := htrip
            subst hr3
            rw [subNLGo_triple r3]
            rw [starsSepAux, if_pos rfl, starsSepAux, if_pos rfl]
            exact ih.2 h'
          · rw [subNLGo_keep r (by
              intro d e r3 hr hde
              exact htrip ⟨r3, by rw [hr, hde.1, hde.2]⟩)]
            rw [starsSepAux, if_pos rfl]
            exact ih.1 false h'
        · rw [subNLGo_cons_not false c r hc]
          by_cases hst : c = '*'
          · rw [starsSepAux, if_neg hc, if_pos hst] at h ⊢
            simp only [Bool.and_eq_true] at h ⊢
            exact ⟨h.1, ih.1 true h.2⟩
          · rw [starsSepAux, if_neg hc, if_neg hst] at h ⊢
            exact ih.1 s h
      · intro h
        by_cases hc : c = '\n'
        · subst hc
          have h' : starsSepAux false r = true := by
            rwa [starsSepAux, if_pos rfl] at h
          rw [subNLGo_inrun]
          exact ih.2 h'
        · rw [subNLGo_cons_not true c r hc]
          by_cases hst : c = '*'
          · rw [starsSepAux, if_neg hc, if_pos hst] at h ⊢
            simp only [Bool.and_eq_true] at h ⊢
            exact ⟨h.1, ih.1 true h.2⟩
          · rw [starsSepAux, if_neg hc, if_neg hst] at h ⊢
            exact ih.1 false h

-- establishment of starsSep on starPhase output

theorem pairSGo_count : ∀ (l : Text) (st : Option Text),
    (∀ a, st = some a → countStar a = 0) → countStar (pairSGo st l) ≤ 1 := by
  intro l
  induction l with
  | nil =>
      intro st hst
      cases st with
      | none => simp [pairSGo, countStar]
      | some a =>
          simp [pairSGo, countStar, countStar_append, countStar_reverse, hst a rfl]
  | cons c r ih =>
      intro st hst
      cases st with
      | none =>
          by_cases hc : c = '*'
          · rw [pairSGo, if_pos hc]
            exact ih (some []) (by intro a ha; cases ha; rfl)
          · rw [pairSGo, if_neg hc]
            simp [countStar, hc]
            exact ih none (by intro a ha; cases ha)
      | some a =>
          by_cases hc : c = '*'
          · rw [pairSGo, if_pos hc]
            rw [countStar_append, countStar_reverse, hst a rfl]
            simpa using ih none (by intro a ha; cases ha)
          · rw [pairSGo, if_neg hc]
            exact ih (some (c :: a)) (by
              intro b hb
              cases hb
              simp [countStar, hc, hst a rfl])

theorem pairSGo_mem : ∀ (l : Text) (st : Option Text) (c : Char),
    c ∈ pairSGo st l → c ∈ l ∨ c = '*' ∨ (∃ a, st = some a ∧ c ∈ a) := by
  intro l
  induction l with
  | nil =>
      intro st c h
      cases st with
      | none => simp [pairSGo] at h
      | some a =>
          simp [pairSGo] at h
          rcases h with h | h
          · exact Or.inr (Or.inl h)
          · exact Or.inr (Or.inr ⟨a, rfl, h⟩)
  | cons d r ih =>
      intro st c h
      cases st with
      | none =>
          by_cases hd : d = '*'
          · rw [pairSGo, if_pos hd] at h
            rcases ih (some []) c h with h1 | h1 | ⟨a, ha, hmem⟩
            · exact Or.inl (List.mem_cons_of_mem _ h1)
            · exact Or.inr (Or.inl h1)
            · cases ha; simp at hmem
          · rw [pairSGo, if_neg hd] at h
            rcases List.mem_cons.mp h with h1 | h1
            · exact Or.inl (h1 ▸ List.mem_cons_self _ _)
            · rcases ih none c h1 with h2 | h2 | ⟨a, ha, _⟩
              · exact Or.inl (List.mem_cons_of_mem _ h2)
              · exact Or.inr (Or.inl h2)
              · cases ha
      | some a =>
          by_cases hd : d = '*'
          · rw [pairSGo, if_pos hd] at h
            rcases List.mem_append.mp h with h1 | h1
            · exact Or.inr (Or.inr ⟨a, rfl, List.mem_reverse.mp h1⟩)
            · rcases ih none c h1 with h2 | h2 | ⟨b, hb, _⟩
              · exact Or.inl (List.mem_cons_of_mem _ h2)
              · exact Or.inr (Or.inl h2)
              · cases hb
          · rw [pairSGo, if_neg hd] at h
            rcases ih (some (d :: a)) c h with h1 | h1 | ⟨b, hb, hmem⟩
            · exact Or.inl (List.mem_cons_of_mem _ h1)
            · exact Or.inr (Or.inl h1)
            · cases hb
              rcases List.mem_cons.mp hmem with h2 | h2
              · exact Or.inl (h2 ▸ List.mem_cons_self _ _)
              · exact Or.inr (Or.inr ⟨a, rfl, h2⟩)

theorem pairDGo_mem : ∀ (l : Text) (st : DState) (c : Char),
    c ∈ pairDGo st l →
    c ∈ l ∨ c = '*' ∨ (∃ a, (st = DState.inner a ∨ st = DState.innerStar a) ∧ c ∈ a) := by
  intro l
  induction l with
  | nil =>
      intro st c h
      cases st with
      | out => simp [pairDGo] at h
      | outStar => simp [pairDGo] at h; exact Or.inr (Or.inl h)
      | inner a =>
          simp only [pairDGo, List.mem_cons, List.mem_reverse] at h
          rcases h with h | h | h
          · exact Or.inr (Or.inl h)
          · exact Or.inr (Or.inl h)
          · exact Or.inr (Or.inr ⟨a, Or.inl rfl, h⟩)
      | innerStar a =>
          simp only [pairDGo] at h
          rcases List.mem_cons.mp h with h1 | h1
          · exact Or.inr (Or.inl h1)
          rcases List.mem_cons.mp h1 with h2 | h2
          · exact Or.inr (Or.inl h2)
          rcases List.mem_append.mp h2 with h3 | h3
          · exact Or.inr (Or.inr ⟨a, Or.inr rfl, List.mem_reverse.mp h3⟩)
          · simp at h3
            exact Or.inr (Or.inl h3)
  | cons d r ih =>
      intro st c h
      have tailor : ∀ x, x ∈ r → x ∈ d :: r := fun x hx => List.mem_cons_of_mem _ hx
      cases st with
      | out =>
          by_cases hd : d = '*'
          · rw [pairDGo, if_pos hd] at h
            rcases ih DState.outStar c h with h1 | h1 | ⟨a, ha, _⟩
            · exact Or.inl (tailor c h1)
            · exact Or.inr (Or.inl h1)
            · rcases ha with ha | ha <;> cases ha
          · rw [pairDGo, if_neg hd] at h
            rcases List.mem_cons.mp h with h1 | h1
            · exact Or.inl (h1 ▸ List.mem_cons_self _ _)
            · rcases ih DState.out c h1 with h2 | h2 | ⟨a, ha, _⟩
              · exact Or.inl (tailor c h2)
              · exact Or.inr (Or.inl h2)
              · rcases ha with ha | ha <;> cases ha
      | outStar =>
          by_cases hd : d = '*'
          · rw [pairDGo, if_pos hd] at h
            rcases ih (DState.inner []) c h with h1 | h1 | ⟨a, ha, hmem⟩
            · exact Or.inl (tailor c h1)
            · exact Or.inr (Or.inl h1)
            · rcases ha with ha | ha
              · cases ha; simp at hmem
              · cases ha
          · rw [pairDGo, if_neg hd] at h
            rcases List.mem_cons.mp h with h1 | h1
            · exact Or.inr (Or.inl h1)
            · rcases List.mem_cons.mp h1 with h2 | h2
              · exact Or.inl (h2 ▸ List.mem_cons_self _ _)
              · rcases ih DState.out c h2 with h3 | h3 | ⟨a, ha, _⟩
                · exact Or.inl (tailor c h3)
                · exact Or.inr (Or.inl h3)
                · rcases ha with ha | ha <;> cases ha
      | inner a =>
          by_cases hd : d = '*'
          · rw [pairDGo, if_pos hd] at h
            rcases ih (DState.innerStar a) c h with h1 | h1 | ⟨b, hb, hmem⟩
            · exact Or.inl (tailor c h1)
            · exact Or.inr (Or.inl h1)
            · rcases hb with hb | hb <;> cases hb
              all_goals exact Or.inr (Or.inr ⟨a, Or.inl rfl, hmem⟩)
          · rw [pairDGo, if_neg hd] at h
            rcases ih (DState.inner (d :: a)) c h with h1 | h1 | ⟨b, hb, hmem⟩
            · exact Or.inl (tailor c h1)
            · exact Or.inr (Or.inl h1)
            · rcases hb with hb | hb <;> cases hb
              all_goals
                rcases List.mem_cons.mp hmem with h2 | h2
                · exact Or.inl (h2 ▸ List.mem_cons_self _ _)
                · exact Or.inr (Or.inr ⟨a, Or.inl rfl, h2⟩)
      | innerStar a =>
          by_cases hd : d = '*'
          · rw [pairDGo, if_pos hd] at h
            rcases List.mem_append.mp h with h1 | h1
            · exact Or.inr (Or.inr ⟨a, Or.inr rfl, List.mem_reverse.mp h1⟩)
            · rcases ih DState.out c h1 with h2 | h2 | ⟨b, hb, _⟩
              · exact Or.inl (tailor c h2)
              · exact Or.inr (Or.inl h2)
              · rcases hb with hb | hb <;> cases hb
          · rw [pairDGo, if_neg hd] at h
            rcases ih (DState.inner (d :: '*' :: a)) c h with h1 | h1 | ⟨b, hb, hmem⟩
            · exact Or.inl (tailor c h1)
            · exact Or.inr (Or.inl h1)
            · rcases hb with hb | hb <;> cases hb
              all_goals
                rcases List.mem_cons.mp hmem with h2 | h2
                · exact Or.inl (h2 ▸ List.mem_cons_self _ _)
                · rcases List.mem_cons.mp h2 with h3 | h3
                  · exact Or.inr (Or.inl h3)
                  · exact Or.inr (Or.inr ⟨a, Or.inr rfl, h3⟩)

-- splitOnNL / joinNL structure

theorem splitOnNL_ne_nil : ∀ t : Text, splitOnNL t ≠ [] := by
  intro t
  induction t with
  | nil => simp [splitOnNL]
  | cons c r ih =>
      by_cases hc : c = '\n'
      · simp [splitOnNL, hc]
      · simp only [splitOnNL, if_neg hc]
        cases h : splitOnNL r with
        | nil => exact absurd h ih
        | cons q qs => simp [List.modifyHead]

theorem splitOnNL_cons_nl (r : Text) : splitOnNL ('\n' :: r) = [] :: splitOnNL r := by
  simp [splitOnNL]

theorem splitOnNL_cons_not (c : Char) (r : Text) (hc : ¬c = '\n') :
    splitOnNL (c :: r) = (c :: (splitOnNL r).headD []) :: (splitOnNL r).tail := by
  simp only [splitOnNL, if_neg hc]
  cases h : splitOnNL r with
  | nil => exact absurd h (splitOnNL_ne_nil r)
  | cons q qs => simp [List.modifyHead]

theorem splitOnNL_no_nl : ∀ (t : Text) (p : Text), p ∈ splitOnNL t → '\n' ∉ p := by
  intro t
  induction t with
  | nil => intro p hp; simp [splitOnNL] at hp; simp [hp]
  | cons c r ih =>
      intro p hp
      by_cases hc : c = '\n'
      · subst hc
        rw [splitOnNL_cons_nl] at hp
        rcases List.mem_cons.mp hp with h1 | h1
        · simp [h1]
        · exact ih p h1
      · rw [splitOnNL_cons_not c r hc] at hp
        rcases List.mem_cons.mp hp with h1 | h1
        · subst h1
          intro hmem
          rcases List.mem_cons.mp hmem with h2 | h2
          · exact hc h2.symm
          · have hhead : (splitOnNL r).headD [] ∈ splitOnNL r := by
              cases h : splitOnNL r with
              | nil => exact absurd h (splitOnNL_ne_nil r)
              | cons q qs => simp
            exact ih _ hhead h2
        · have : p ∈ splitOnNL r := by
            cases h : splitOnNL r with
            | nil => exact absurd h (splitOnNL_ne_nil r)
            | cons q qs => rw [h] at h1; exact List.mem_cons_of_mem _ h1
          exact ih p this

theorem joinNL_splitOnNL : ∀ t : Text, joinNL (splitOnNL t) = t := by
  intro t
  induction t with
  | nil => rfl
  | cons c r ih =>
      by_cases hc : c = '\n'
      · subst hc
        rw [splitOnNL_cons_nl]
        cases h : splitOnNL r with
        | nil => exact absurd h (splitOnNL_ne_nil r)
        | cons q qs =>
            rw [h] at ih
            calc joinNL ([] :: q :: qs) = '\n' :: joinNL (q :: qs) := by
                  rw [joinNL]; rfl
              _ = '\n' :: r := by rw [ih]
      · rw [splitOnNL_cons_not c r hc]
        cases h : splitOnNL r with
        | nil => exact absurd h (splitOnNL_ne_nil r)
        | cons q qs =>
            rw [h] at ih
            simp only [List.headD_cons, List.tail_cons]
            cases qs with
            | nil =>
                rw [joinNL] at ih ⊢
                rw [ih]
            | cons q2 qs2 =>
                rw [joinNL] at ih ⊢
                rw [List.cons_append, ih]

theorem ssa_carry_of_zero : ∀ (a : Text), '\n' ∉ a → countStar a = 0 →
    ∀ (s : Bool) (b : Text), starsSepAux s b = true → starsSepAux s (a ++ b) = true := by
  intro a
  induction a with
  | nil => intro _ _ s b hb; simpa using hb
  | cons c a2 ih =>
      intro hnl hz s b hb
      have hcnl : ¬c = '\n' := fun he => hnl (he ▸ List.mem_cons_self _ _)
      have hcst : ¬c = '*' := by
        intro he
        rw [countStar, if_pos he] at hz
        omega
      have hnl2 : '\n' ∉ a2 := fun hm => hnl (List.mem_cons_of_mem _ hm)
      have hz2 : countStar a2 = 0 := by
        rw [countStar, if_neg hcst] at hz
        omega
      rw [List.cons_append, starsSepAux, if_neg hcnl, if_neg hcst]
      exact ih hnl2 hz2 s b hb

theorem ssa_part_carry : ∀ (a : Text), '\n' ∉ a → countStar a ≤ 1 →
    ∀ (b : Text), starsSepAux false b = true →
    starsSepAux false (a ++ '\n' :: b) = true := by
  intro a
  induction a with
  | nil =>
      intro _ _ b hb
      rw [List.nil_append, starsSepAux, if_pos rfl]
      exact hb
  | cons c a2 ih =>
      intro hnl hle b hb
      have hcnl : ¬c = '\n' := fun he => hnl (he ▸ List.mem_cons_self _ _)
      have hnl2 : '\n' ∉ a2 := fun hm => hnl (List.mem_cons_of_mem _ hm)
      by_cases hcst : c = '*'
      · have hz2 : countStar a2 = 0 := by
          rw [countStar, if_pos hcst] at hle
          omega
        rw [List.cons_append, starsSepAux, if_neg hcnl, if_pos hcst]
        simp only [Bool.not_false, Bool.true_and]
        apply ssa_carry_of_zero a2 hnl2 hz2 true
        rw [starsSepAux, if_pos rfl]
        exact hb
      · have hle2 : countStar a2 ≤ 1 := by
          rw [countStar, if_neg hcst] at hle
          omega
        rw [List.cons_append, starsSepAux, if_neg hcnl, if_neg hcst]
        exact ih hnl2 hle2 b hb

theorem ssa_part_last : ∀ (a : Text), '\n' ∉ a → countStar a ≤ 1 →
    starsSepAux false a = true := by
  intro a
  induction a with
  | nil => intro _ _; rfl
  | cons c a2 ih =>
      intro hnl hle
      have hcnl : ¬c = '\n' := fun he => hnl (he ▸ List.mem_cons_self _ _)
      have hnl2 : '\n' ∉ a2 := fun hm => hnl (List.mem_cons_of_mem _ hm)
      by_cases hcst : c = '*'
      · have hz2 : countStar a2 = 0 := by
          rw [countStar, if_pos hcst] at hle
          omega
        rw [starsSepAux, if_neg hcnl, if_pos hcst]
        simp only [Bool.not_false, Bool.true_and]
        have := ssa_carry_of_zero a2 hnl2 hz2 true [] rfl
        simpa using this
      · have hle2 : countStar a2 ≤ 1 := by
          rw [countStar, if_neg hcst] at hle
          omega
        rw [starsSepAux, if_neg hcnl, if_neg hcst]
        exact ih hnl2 hle2

theorem ssa_joinNL : ∀ parts : List Text,
    (∀ p ∈ parts, '\n' ∉ p ∧ countStar p ≤ 1) →
    starsSepAux false (joinNL parts) = true := by
  intro parts
  induction parts with
  | nil => intro _; rfl
  | cons p ps ih =>
      intro h
      cases ps with
      | nil =>
          rw [joinNL]
          exact ssa_part_last p (h p (List.mem_cons_self _ _)).1 (h p (List.mem_cons_self _ _)).2
      | cons q qs =>
          rw [joinNL]
          exact ssa_part_carry p (h p (List.mem_cons_self _ _)).1 (h p (List.mem_cons_self _ _)).2
            _ (ih (fun x hx => h x (List.mem_cons_of_mem _ hx)))

theorem starPhase_starsSep (t : Text) : starsSepAux false (starPhase t) = true := by
  unfold starPhase
  apply ssa_joinNL
  intro p hp
  rw [List.mem_map] at hp
  obtain ⟨q, hq, hpq⟩ := hp
  subst hpq
  constructor
  · intro hmem
    unfold pairStars at hmem
    rcases pairSGo_mem _ none '\n' hmem with h1 | h1 | ⟨a, ha, _⟩
    · unfold pairDouble at h1
      rcases pairDGo_mem _ DState.out '\n' h1 with h2 | h2 | ⟨a, ha, _⟩
      · exact splitOnNL_no_nl t q hq h2
      · simp at h2
      · rcases ha with ha | ha <;> cases ha
    · simp at h1
    · cases ha
  · exact pairSGo_count _ none (by intro a ha; cases ha)

-- noSTPair: establishment and preservation

theorem nst_mono : ∀ (l : Text) (s : Bool), noSTAux s l = true → noSTAux false l = true := by
  intro l
  cases l with
  | nil => intro s _; rfl
  | cons c r =>
      intro s h
      by_cases hc : isST c
      · rw [noSTAux, if_pos hc] at h ⊢
        simp only [Bool.and_eq_true] at h ⊢
        exact ⟨rfl, h.2⟩
      · rwa [noSTAux, if_neg hc] at h ⊢

theorem nst_subSpaces_pair : ∀ l : Text,
    noSTAux false (subSpacesGo false l) = true ∧ noSTAux true (subSpacesGo true l) = true := by
  intro l
  induction l with
  | nil => exact ⟨rfl, rfl⟩
  | cons c r ih =>
      constructor
      · by_cases hc : isST c
        · cases r with
          | nil =>
              rw [subSpacesGo_one c hc, noSTAux, if_pos hc]
              rfl
          | cons d r2 =>
              by_cases hd : isST d
              · rw [subSpacesGo_run c d r2 hc hd, noSTAux, if_pos (by decide)]
                simp only [Bool.not_false, Bool.true_and]
                exact ih.2
              · rw [subSpacesGo_single c d r2 hc (by simpa using hd), noSTAux, if_pos hc]
                simp only [Bool.not_false, Bool.true_and]
                rw [subSpacesGo_cons_not false d r2 (by simpa using hd), noSTAux,
                    if_neg (by simpa using hd)]
                have := ih.1
                rw [subSpacesGo_cons_not false d r2 (by simpa using hd), noSTAux,
                    if_neg (by simpa using hd)] at this
                exact this
        · rw [subSpacesGo_cons_not false c r (by simpa using hc), noSTAux,
              if_neg (by simpa using hc)]
          exact ih.1
      · by_cases hc : isST c
        · rw [subSpacesGo_inrun c r hc]
          exact ih.2
        · rw [subSpacesGo_cons_not true c r (by simpa using hc), noSTAux,
              if_neg (by simpa using hc)]
          exact ih.1

theorem nst_subNLGo_pair : ∀ l : Text,
    (∀ s, noSTAux s l = true → noSTAux s (subNLGo false l) = true) ∧
    (noSTAux false l = true → noSTAux false (subNLGo true l) = true) := by
  intro l
  induction l with
  | nil => exact ⟨fun s _ => rfl, fun _ => rfl⟩
  | cons c r ih =>
      have hnlST : isST '\n' = false := by decide
      constructor
      · intro s h
        by_cases hc : c = '\n'
        · subst hc
          have h' : noSTAux false r = true := by
            rw [noSTAux, if_neg (by simp [hnlST])] at h
            exact h
          by_cases htrip : ∃ r3, r = '\n' :: '\n' :: r3
          · obtain ⟨r3, hr3⟩ := htrip
            subst hr3
            rw [subNLGo_triple r3]
            rw [noSTAux, if_neg (by simp [hnlST]), noSTAux, if_neg (by simp [hnlST])]
            exact ih.2 h'
          · rw [subNLGo_keep r (by
              intro d e r3 hr hde
              exact htrip ⟨r3, by rw [hr, hde.1, hde.2]⟩)]
            rw [noSTAux, if_neg (by simp [hnlST])]
            exact ih.1 false h'
        · rw [subNLGo_cons_not false c r hc]
          by_cases hst : isST c
          · rw [noSTAux, if_pos hst] at h ⊢
            simp only [Bool.and_eq_true] at h ⊢
            exact ⟨h.1, ih.1 true h.2⟩
          · rw [noSTAux, if_neg hst] at h ⊢
            exact ih.1 false h
      · intro h
        by_cases hc : c = '\n'
        · subst hc
          have h' : noSTAux false r = true := by
            rw [noSTAux, if_neg (by simp [hnlST])] at h
            exact h
          rw [subNLGo_inrun]
          exact ih.2 h'
        · rw [subNLGo_cons_not true c r hc]
          by_cases hst : isST c
          · rw [noSTAux, if_pos hst] at h ⊢
            simp only [Bool.and_eq_true] at h ⊢
            exact ⟨h.1, ih.1 true h.2⟩
          · rw [noSTAux, if_neg hst] at h ⊢
            exact ih.1 false h

theorem nst_dropWhile_ws : ∀ l : Text,
    noSTAux false l = true → noSTAux false (l.dropWhile isSpaceRe) = true := by
  intro l
  induction l with
  | nil => intro _; rfl
  | cons c r ih =>
      intro h
      by_cases hp : isSpaceRe c
      · rw [List.dropWhile_cons_of_pos hp]
        apply ih
        by_cases hst : isST c
        · rw [noSTAux, if_pos hst] at h
          simp only [Bool.and_eq_true] at h
          exact nst_mono r true h.2
        · rwa [noSTAux, if_neg hst] at h
      · rwa [List.dropWhile_cons_of_neg hp]

theorem nst_append_left : ∀ (a b : Text) (s : Bool),
    noSTAux s (a ++ b) = true → noSTAux s a = true := by
  intro a
  induction a with
  | nil => intro b s _; rfl
  | cons c r ih =>
      intro b s h
      rw [List.cons_append] at h
      by_cases hst : isST c
      · rw [noSTAux, if_pos hst] at h ⊢
        simp only [Bool.and_eq_true] at h ⊢
        exact ⟨h.1, ih b true h.2⟩
      · rw [noSTAux, if_neg hst] at h ⊢
        exact ih b false h

theorem nst_pyStrip (l : Text) (h : noSTAux false l = true) :
    noSTAux false (pyStrip l) = true := by
  unfold pyStrip
  set m := l.dropWhile isSpaceRe with hm
  have h1 : noSTAux false m = true := nst_dropWhile_ws l h
  have hdecomp := text_decomp isSpaceRe m
  apply nst_append_left _ ((m.reverse.takeWhile isSpaceRe).reverse)
  rw [← hdecomp]
  exact h1

-- noNL3: establishment and preservation

theorem nnl_mono : ∀ (l : Text) (j k : Nat), j ≤ k →
    noNL3Aux k l = true → noNL3Aux j l = true := by
  intro l
  induction l with
  | nil => intro j k _ _; rfl
  | cons c r ih =>
      intro j k hjk h
      by_cases hc : c = '\n'
      · rw [noNL3Aux, if_pos hc] at h ⊢
        simp only [Bool.and_eq_true, decide_eq_true_eq] at h ⊢
        exact ⟨by omega, ih (j + 1) (k + 1) (by omega) h.2⟩
      · rw [noNL3Aux, if_neg hc] at h ⊢
        exact h

theorem nnl_subNLGo_pair : ∀ (n : Nat) (l : Text), l.length ≤ n →
    noNL3Aux 0 (subNLGo false l) = true ∧ noNL3Aux 2 (subNLGo true l) = true := by
  intro n
  induction n with
  | zero =>
      intro l hl
      have : l = [] := List.length_eq_zero.mp (Nat.le_zero.mp hl)
      subst this
      exact ⟨rfl, rfl⟩
  | succ n ihn =>
      intro l hl
      cases l with
      | nil => exact ⟨rfl, rfl⟩
      | cons c r =>
          have hr : r.length ≤ n := by simpa using hl
          constructor
          · by_cases hc : c = '\n'
            · subst hc
              by_cases htrip : ∃ r3, r = '\n' :: '\n' :: r3
              · obtain ⟨r3, hr3⟩ := htrip
                subst hr3
                rw [subNLGo_triple r3]
                rw [noNL3Aux, if_pos rfl, noNL3Aux, if_pos rfl]
                simp only [Bool.and_eq_true, decide_eq_true_eq]
                exact ⟨by omega, by omega, (ihn _ hr).2⟩
              · rw [subNLGo_keep r (by
                  intro d e r3 hrr hde
                  exact htrip ⟨r3, by rw [hrr, hde.1, hde.2]⟩)]
                rw [noNL3Aux, if_pos rfl]
                simp only [Bool.and_eq_true, decide_eq_true_eq]
                refine ⟨by omega, ?_⟩
                cases r with
                | nil => rfl
                | cons d r2 =>
                    by_cases hd : d = '\n'
                    · subst hd
                      have hnohead : ∀ r3, r2 ≠ '\n' :: r3 := by
                        intro r3 hr2
                        exact htrip ⟨r3, by rw [hr2]⟩
                      rw [subNLGo_keep r2 (by
                        intro e f r4 hr2 hef
                        exact hnohead (f :: r4) (by rw [hr2, hef.1]))]
                      rw [noNL3Aux, if_pos rfl]
                      simp only [Bool.and_eq_true, decide_eq_true_eq]
                      refine ⟨by omega, ?_⟩
                      cases r2 with
                      | nil => rfl
                      | cons e r3 =>
                          have he : ¬e = '\n' := fun hee => hnohead r3 (by rw [hee])
                          rw [subNLGo_cons_not false e r3 he, noNL3Aux, if_neg he]
                          exact (ihn r3 (by simp at hl; omega)).1
                    · rw [subNLGo_cons_not false d r2 hd, noNL3Aux, if_neg hd]
                      exact (ihn r2 (by simp at hl; omega)).1
            · rw [subNLGo_cons_not false c r hc, noNL3Aux, if_neg hc]
              exact (ihn r hr).1
          · by_cases hc : c = '\n'
            · subst hc
              rw [subNLGo_inrun]
              exact (ihn r hr).2
            · rw [subNLGo_cons_not true c r hc, noNL3Aux, if_neg hc]
              exact (ihn r hr).1

theorem nnl_dropWhile_ws : ∀ l : Text,
    noNL3Aux 0 l = true → noNL3Aux 0 (l.dropWhile isSpaceRe) = true := by
  intro l
  induction l with
  | nil => intro _; rfl
  | cons c r ih =>
      intro h
      by_cases hp : isSpaceRe c
      · rw [List.dropWhile_cons_of_pos hp]
        apply ih
        by_cases hc : c = '\n'
        · rw [noNL3Aux, if_pos hc] at h
          simp only [Bool.and_eq_true, decide_eq_true_eq] at h
          exact nnl_mono r 0 1 (by omega) h.2
        · rwa [noNL3Aux, if_neg hc] at h
      · rwa [List.dropWhile_cons_of_neg hp]

theorem nnl_append_left : ∀ (a b : Text) (k : Nat),
    noNL3Aux k (a ++ b) = true → noNL3Aux k a = true := by
  intro a
  induction a with
  | nil => intro b k _; rfl
  | cons c r ih =>
      intro b k h
      rw [List.cons_append] at h
      by_cases hc : c = '\n'
      · rw [noNL3Aux, if_pos hc] at h ⊢
        simp only [Bool.and_eq_true, decide_eq_true_eq] at h ⊢
        exact ⟨h.1, ih b (k + 1) h.2⟩
      · rw [noNL3Aux, if_neg hc] at h ⊢
        exact ih b 0 h

theorem nnl_pyStrip (l : Text) (h : noNL3Aux 0 l = true) :
    noNL3Aux 0 (pyStrip l) = true := by
  unfold pyStrip
  set m := l.dropWhile isSpaceRe with hm
  have h1 : noNL3Aux 0 m = true := nnl_dropWhile_ws l h
  have hdecomp := text_decomp isSpaceRe m
  apply nnl_append_left _ ((m.reverse.takeWhile isSpaceRe).reverse)
  rw [← hdecomp]
  exact h1

-- identity lemmas on normalised text

theorem subSpacesGo_id : ∀ l : Text, noSTAux false l = true → subSpacesGo false l = l := by
  intro l
  induction l with
  | nil => intro _; rfl
  | cons c r ih =>
      intro h
      by_cases hc : isST c
      · rw [noSTAux, if_pos hc] at h
        simp only [Bool.and_eq_true] at h
        cases r with
        | nil => exact subSpacesGo_one c hc
        | cons d r2 =>
            by_cases hd : isST d
            · rw [noSTAux, if_pos hd] at h
              simp at h
            · rw [subSpacesGo_single c d r2 hc (by simpa using hd)]
              rw [ih (nst_mono _ _ h.2)]
      · rw [subSpacesGo_cons_not false c r (by simpa using hc)]
        rw [noSTAux, if_neg hc] at h
        rw [ih h]

theorem subNLGo_id : ∀ l : Text, noNL3Aux 0 l = true → subNLGo false l = l := by
  intro l
  induction l with
  | nil => intro _; rfl
  | cons c r ih =>
      intro h
      by_cases hc : c = '\n'
      · subst hc
        rw [noNL3Aux, if_pos rfl] at h
        simp only [Bool.and_eq_true, decide_eq_true_eq] at h
        by_cases htrip : ∃ r3, r = '\n' :: '\n' :: r3
        · obtain ⟨r3, hr3⟩ := htrip
          subst hr3
          rw [noNL3Aux, if_pos rfl] at h
          simp only [Bool.and_eq_true, decide_eq_true_eq] at h
          rw [noNL3Aux, if_pos rfl] at h
          simp only [Bool.and_eq_true, decide_eq_true_eq] at h
          omega
        · rw [subNLGo_keep r (by
            intro d e r3 hrr hde
            exact htrip ⟨r3, by rw [hrr, hde.1, hde.2]⟩)]
          rw [ih (nnl_mono r 0 1 (by omega) h.2)]
      · rw [subNLGo_cons_not false c r hc]
        rw [noNL3Aux, if_neg hc] at h
        rw [ih h]

theorem subCRLF_no_cr : ∀ l : Text, '\r' ∉ l → subCRLF l = l := by
  intro l
  induction l using subCRLF.induct with
  | case1 => intro _; rfl
  | case2 c => intro _; rfl
  | case3 c d rest hcd ih =>
      intro h
      exact absurd (hcd.1 ▸ List.mem_cons_self _ _) h
  | case4 c d rest hcd ih =>
      intro h
      rw [subCRLF, if_neg hcd]
      rw [ih (fun hm => h (List.mem_cons_of_mem _ hm))]

theorem mem_subCRLF : ∀ (l : Text) (c : Char), c ∈ subCRLF l → c ∈ l ∨ c = '\n' := by
  intro l
  induction l using subCRLF.induct with
  | case1 => intro c h; simp [subCRLF] at h
  | case2 d => intro c h; simp [subCRLF] at h; simp [h]
  | case3 c0 d rest hcd ih =>
      intro c h
      rw [subCRLF, if_pos hcd] at h
      rcases List.mem_cons.mp h with h1 | h1
      · exact Or.inr h1
      · rcases ih c h1 with h2 | h2
        · exact Or.inl (List.mem_cons_of_mem _ (List.mem_cons_of_mem _ h2))
        · exact Or.inr h2
  | case4 c0 d rest hcd ih =>
      intro c h
      rw [subCRLF, if_neg hcd] at h
      rcases List.mem_cons.mp h with h1 | h1
      · exact Or.inl (h1 ▸ List.mem_cons_self _ _)
      · rcases ih c h1 with h2 | h2
        · exact Or.inl (List.mem_cons_of_mem _ h2)
        · exact Or.inr h2

theorem mem_subSpacesGo : ∀ (l : Text) (b : Bool) (c : Char),
    c ∈ subSpacesGo b l → c ∈ l ∨ c = ' ' := by
  intro l
  induction l with
  | nil => intro b c h; simp [subSpacesGo] at h
  | cons d r ih =>
      intro b c h
      by_cases hd : isST d
      · cases b with
        | true =>
            rw [subSpacesGo_inrun d r hd] at h
            rcases ih true c h with h1 | h1
            · exact Or.inl (List.mem_cons_of_mem _ h1)
            · exact Or.inr h1
        | false =>
            cases r with
            | nil =>
                rw [subSpacesGo_one d hd] at h
                simp at h
                simp [h]
            | cons e r2 =>
                by_cases he : isST e
                · rw [subSpacesGo_run d e r2 hd he] at h
                  rcases List.mem_cons.mp h with h1 | h1
                  · exact Or.inr h1
                  · rcases ih true c h1 with h2 | h2
                    · exact Or.inl (List.mem_cons_of_mem _ h2)
                    · exact Or.inr h2
                · rw [subSpacesGo_single d e r2 hd (by simpa using he)] at h
                  rcases List.mem_cons.mp h with h1 | h1
                  · exact Or.inl (h1 ▸ List.mem_cons_self _ _)
                  · rcases ih false c h1 with h2 | h2
                    · exact Or.inl (List.mem_cons_of_mem _ h2)
                    · exact Or.inr h2
      · rw [subSpacesGo_cons_not b d r (by simpa using hd)] at h
        rcases List.mem_cons.mp h with h1 | h1
        · exact Or.inl (h1 ▸ List.mem_cons_self _ _)
        · rcases ih false c h1 with h2 | h2
          · exact Or.inl (List.mem_cons_of_mem _ h2)
          · exact Or.inr h2

theorem mem_subNLGo : ∀ (l : Text) (b : Bool) (c : Char),
    c ∈ subNLGo b l → c ∈ l ∨ c = '\n' := by
  intro l
  induction l with
  | nil => intro b c h; simp [subNLGo] at h
  | cons d r ih =>
      intro b c h
      by_cases hd : d = '\n'
      · subst hd
        cases b with
        | true =>
            rw [subNLGo_inrun] at h
            rcases ih true c h with h1 | h1
            · exact Or.inl (List.mem_cons_of_mem _ h1)
            · exact Or.inr h1
        | false =>
            by_cases htrip : ∃ r3, r = '\n' :: '\n' :: r3
            · obtain ⟨r3, hr3⟩ := htrip
              subst hr3
              rw [subNLGo_triple r3] at h
              rcases List.mem_cons.mp h with h1 | h1
              · exact Or.inr h1
              · rcases List.mem_cons.mp h1 with h2 | h2
                · exact Or.inr h2
                · rcases ih true c h2 with h3 | h3
                  · exact Or.inl (List.mem_cons_of_mem _ h3)
                  · exact Or.inr h3
            · rw [subNLGo_keep r (by
                intro d e r3 hrr hde
                exact htrip ⟨r3, by rw [hrr, hde.1, hde.2]⟩)] at h
              rcases List.mem_cons.mp h with h1 | h1
              · exact Or.inr h1
              · rcases ih false c h1 with h2 | h2
                · exact Or.inl (List.mem_cons_of_mem _ h2)
                · exact Or.inr h2
      · rw [subNLGo_cons_not b d r hd] at h
        rcases List.mem_cons.mp h with h1 | h1
        · exact Or.inl (h1 ▸ List.mem_cons_self _ _)
        · rcases ih false c h1 with h2 | h2
          · exact Or.inl (List.mem_cons_of_mem _ h2)
          · exact Or.inr h2

-- star-phase identity on star-separated text

theorem pairDGo_out_zero : ∀ l : Text, countStar l = 0 → pairDGo DState.out l = l := by
  intro l
  induction l with
  | nil => intro _; rfl
  | cons c r ih =>
      intro h
      have hc : ¬c = '*' := by
        intro he; rw [countStar, if_pos he] at h; omega
      have hr : countStar r = 0 := by
        rw [countStar, if_neg hc] at h; omega
      rw [pairDGo, if_neg hc, ih hr]

theorem pairDGo_outStar_zero : ∀ l : Text, countStar l = 0 →
    pairDGo DState.outStar l = '*' :: l := by
  intro l
  induction l with
  | nil => intro _; rfl
  | cons c r ih =>
      intro h
      have hc : ¬c = '*' := by
        intro he; rw [countStar, if_pos he] at h; omega
      have hr : countStar r = 0 := by
        rw [countStar, if_neg hc] at h; omega
      rw [pairDGo, if_neg hc, pairDGo_out_zero r hr]

theorem pairDouble_id (l : Text) (h : countStar l ≤ 1) : pairDouble l = l := by
  unfold pairDouble
  induction l with
  | nil => rfl
  | cons c r ih =>
      by_cases hc : c = '*'
      · have hr : countStar r = 0 := by
          rw [countStar, if_pos hc] at h; omega
        rw [pairDGo, if_pos hc, pairDGo_outStar_zero r hr, hc]
      · have hr : countStar r ≤ 1 := by
          rw [countStar, if_neg hc] at h; omega
        rw [pairDGo, if_neg hc, ih hr]

theorem pairSGo_some_zero : ∀ (l : Text) (acc : Text), countStar l = 0 →
    pairSGo (some acc) l = '*' :: acc.reverse ++ l := by
  intro l
  induction l with
  | nil => intro acc _; simp [pairSGo]
  | cons c r ih =>
      intro acc h
      have hc : ¬c = '*' := by
        intro he; rw [countStar, if_pos he] at h; omega
      have hr : countStar r = 0 := by
        rw [countStar, if_neg hc] at h; omega
      rw [pairSGo, if_neg hc, ih (c :: acc) hr]
      simp

theorem pairStars_id (l : Text) (h : countStar l ≤ 1) : pairStars l = l := by
  unfold pairStars
  induction l with
  | nil => rfl
  | cons c r ih =>
      by_cases hc : c = '*'
      · have hr : countStar r = 0 := by
          rw [countStar, if_pos hc] at h; omega
        rw [pairSGo, if_pos hc, pairSGo_some_zero r [] hr, hc]
        rfl
      · have hr : countStar r ≤ 1 := by
          rw [countStar, if_neg hc] at h; omega
        rw [pairSGo, if_neg hc, ih hr]

theorem ssa_parts_count : ∀ (t : Text) (s : Bool), starsSepAux s t = true →
    countStar ((splitOnNL t).headD []) ≤ (if s then 0 else 1) ∧
    ∀ p ∈ (splitOnNL t).tail, countStar p ≤ 1 := by
  intro t
  induction t with
  | nil =>
      intro s _
      constructor
      · simp [splitOnNL, countStar]
      · simp [splitOnNL]
  | cons c r ih =>
      intro s h
      by_cases hc : c = '\n'
      · subst hc
        rw [starsSepAux, if_pos rfl] at h
        rw [splitOnNL_cons_nl]
        constructor
        · simp [countStar]
        · intro p hp
          simp only [List.tail_cons] at hp
          have hir := ih false h
          cases hsp : splitOnNL r with
          | nil => exact absurd hsp (splitOnNL_ne_nil r)
          | cons q qs =>
              rw [hsp] at hp hir
              rcases List.mem_cons.mp hp with h1 | h1
              · subst h1
                have := hir.1
                simp only [List.headD_cons] at this
                exact le_trans this (by split <;> omega)
              · exact hir.2 p (by simpa using h1)
      · rw [splitOnNL_cons_not c r hc]
        by_cases hst : c = '*'
        · rw [starsSepAux, if_neg hc, if_pos hst] at h
          simp only [Bool.and_eq_true, Bool.not_eq_true'] at h
          have hir := ih true h.2
          constructor
          · simp only [List.headD_cons, countStar, if_pos hst]
            have hz := hir.1
            simp only [reduceIte] at hz
            have hs : s = false := h.1
            subst hs
            simp only [if_neg (by simp : ¬false = true)]
            omega
          · simpa using hir.2
        · rw [starsSepAux, if_neg hc, if_neg hst] at h
          have hir := ih s h
          constructor
          · simp only [List.headD_cons, countStar, if_neg hst]
            simpa using hir.1
          · simpa using hir.2

theorem starPhase_id (t : Text) (h : starsSepAux false t = true) : starPhase t = t := by
  unfold starPhase
  have hmap : (splitOnNL t).map (fun l => pairStars (pairDouble l)) = splitOnNL t := by
    have hcg : (splitOnNL t).map (fun l => pairStars (pairDouble l)) = (splitOnNL t).map id := by
      apply List.map_congr_left
      intro p hp
      have hcount : countStar p ≤ 1 := by
        have hpc := ssa_parts_count t false h
        cases hsp : splitOnNL t with
        | nil => exact absurd hsp (splitOnNL_ne_nil t)
        | cons q qs =>
            rw [hsp] at hp hpc
            rcases List.mem_cons.mp hp with h1 | h1
            · subst h1
              have := hpc.1
              simp only [List.headD_cons] at this
              exact le_trans this (by norm_num)
            · exact hpc.2 p (by simpa using h1)
      rw [pairDouble_id p hcount, pairStars_id p hcount]
      rfl
    rw [hcg, List.map_id]
  rw [hmap, joinNL_splitOnNL]

-- membership through the star phase

theorem mem_splitOnNL : ∀ (t : Text) (p : Text), p ∈ splitOnNL t → ∀ c, c ∈ p → c ∈ t := by
  intro t
  induction t with
  | nil =>
      intro p hp c hc
      simp [splitOnNL] at hp
      subst hp
      simp at hc
  | cons d r ih =>
      intro p hp c hc
      by_cases hd : d = '\n'
      · subst hd
        rw [splitOnNL_cons_nl] at hp
        rcases List.mem_cons.mp hp with h1 | h1
        · subst h1; simp at hc
        · exact List.mem_cons_of_mem _ (ih p h1 c hc)
      · rw [splitOnNL_cons_not d r hd] at hp
        rcases List.mem_cons.mp hp with h1 | h1
        · subst h1
          rcases List.mem_cons.mp hc with h2 | h2
          · exact h2 ▸ List.mem_cons_self _ _
          · have hhead : (splitOnNL r).headD [] ∈ splitOnNL r := by
              cases h : splitOnNL r with
              | nil => exact absurd h (splitOnNL_ne_nil r)
              | cons q qs => simp
            exact List.mem_cons_of_mem _ (ih _ hhead c h2)
        · have hmem : p ∈ splitOnNL r := by
            cases h : splitOnNL r with
            | nil => exact absurd h (splitOnNL_ne_nil r)
            | cons q qs => rw [h] at h1; exact List.mem_cons_of_mem _ h1
          exact List.mem_cons_of_mem _ (ih p hmem c hc)

theorem mem_joinNL : ∀ (parts : List Text) (c : Char),
    c ∈ joinNL parts → (∃ p ∈ parts, c ∈ p) ∨ c = '\n' := by
  intro parts
  induction parts with
  | nil => intro c h; simp [joinNL] at h
  | cons p ps ih =>
      intro c h
      cases ps with
      | nil =>
          rw [joinNL] at h
          exact Or.inl ⟨p, List.mem_cons_self _ _, h⟩
      | cons q qs =>
          rw [joinNL] at h
          rcases List.mem_append.mp h with h1 | h1
          · exact Or.inl ⟨p, List.mem_cons_self _ _, h1⟩
          · rcases List.mem_cons.mp h1 with h2 | h2
            · exact Or.inr h2
            · rcases ih c h2 with ⟨p2, hp2, hc2⟩ | h3
              · exact Or.inl ⟨p2, List.mem_cons_of_mem _ hp2, hc2⟩
              · exact Or.inr h3

theorem mem_starPhase (t : Text) (c : Char) (h : c ∈ starPhase t) :
    c ∈ t ∨ c = '\n' ∨ c = '*' := by
  unfold starPhase at h
  rcases mem_joinNL _ c h with ⟨p, hp, hc⟩ | h1
  · rw [List.mem_map] at hp
    obtain ⟨q, hq, hpq⟩ := hp
    subst hpq
    unfold pairStars at hc
    rcases pairSGo_mem _ none c hc with h2 | h2 | ⟨a, ha, _⟩
    · unfold pairDouble at h2
      rcases pairDGo_mem _ DState.out c h2 with h3 | h3 | ⟨a, ha, _⟩
      · exact Or.inl (mem_splitOnNL t q hq c h3)
      · exact Or.inr (Or.inr h3)
      · rcases ha with ha | ha <;> cases ha
    · exact Or.inr (Or.inr h2)
    · cases ha
  · exact Or.inr (Or.inl h1)

theorem filter_eq_self_of (p : Char → Bool) :
    ∀ l : Text, (∀ c ∈ l, p c = true) → l.filter p = l := by
  intro l
  induction l with
  | nil => intro _; rfl
  | cons c r ih =>
      intro h
      rw [List.filter_cons_of_pos (h c (List.mem_cons_self _ _))]
      rw [ih (fun x hx => h x (List.mem_cons_of_mem _ hx))]

-- C7 amended: the normaliser is idempotent on carriage-return-free text

theorem clean_formatting_idem (t : Text) (h : '\r' ∉ t) :
    clean_formatting (clean_formatting t) = clean_formatting t := by
  by_cases ht : t = []
  · subst ht; rfl
  have hy : clean_formatting t
      = pyStrip (subNewlines (subSpaces (subCRLF (stripSymbols (starPhase t))))) := by
    rw [clean_formatting, if_neg ht]
  set z0 := starPhase t with hz0
  set z1 := stripSymbols z0 with hz1
  have hr0 : '\r' ∉ z0 := by
    intro hm
    rcases mem_starPhase t '\r' hm with h1 | h1 | h1
    · exact h h1
    · simp at h1
    · simp at h1
  have hr1 : '\r' ∉ z1 := fun hm => hr0 (List.mem_of_mem_filter hm)
  have hz2 : subCRLF z1 = z1 := subCRLF_no_cr z1 hr1
  rw [hz2] at hy
  set z3 := subSpaces z1 with hz3
  set z4 := subNewlines z3 with hz4
  set y := pyStrip z4 with hydef
  -- carriage-return freedom of y
  have hr3 : '\r' ∉ z3 := by
    intro hm
    rcases mem_subSpacesGo z1 false '\r' hm with h1 | h1
    · exact hr1 h1
    · simp at h1
  have hr4 : '\r' ∉ z4 := by
    intro hm
    rcases mem_subNLGo z3 false '\r' hm with h1 | h1
    · exact hr3 h1
    · simp at h1
  have hry : '\r' ∉ y := fun hm => hr4 (mem_pyStrip z4 '\r' hm)
  -- symbol freedom of y
  have hsym : ∀ c ∈ y, (!(symbolChars.contains c)) = true := by
    intro c hc
    have hc4 : c ∈ z4 := mem_pyStrip z4 c hc
    rcases mem_subNLGo z3 false c hc4 with h1 | h1
    · rcases mem_subSpacesGo z1 false c h1 with h2 | h2
      · have h2x : c ∈ z0.filter (fun x => !(symbolChars.contains x)) := by
          rw [hz1, stripSymbols] at h2
          exact h2
        exact (List.mem_filter.mp h2x).2
      · subst h2; decide
    · subst h1; decide
  -- star separation of y
  have hss : starsSepAux false y = true := by
    apply ssa_pyStrip
    apply (ssa_subNLGo_pair z3).1
    apply (ssa_subSpacesGo_pair z1).1
    apply ssa_filter _ (by decide) (by decide)
    exact starPhase_starsSep t
  -- no adjacent space-tab pairs in y
  have hnst : noSTAux false y = true := by
    apply nst_pyStrip
    apply (nst_subNLGo_pair z3).1
    exact (nst_subSpaces_pair z1).1
  -- no triple newlines in y
  have hnnl : noNL3Aux 0 y = true := by
    apply nnl_pyStrip
    exact (nnl_subNLGo_pair z3.length z3 le_rfl).1
  -- assemble
  rw [hy]
  by_cases hy0 : y = []
  · rw [hy0]; rfl
  rw [clean_formatting, if_neg hy0]
  rw [starPhase_id y hss]
  rw [show stripSymbols y = y from filter_eq_self_of _ y hsym]
  rw [subCRLF_no_cr y hry]
  show pyStrip (subNLGo false (subSpacesGo false y)) = y
  rw [subSpacesGo_id y hnst, subNLGo_id y hnnl]
  exact pyStrip_idem z4

/-- Counterexample to C7: the normaliser is not idempotent; on `"a\r\r\nb"`
the first pass yields `"a\r\nb"` (re.sub replaces the `"\r\n"` pair once,
left to right, and the new adjacency is not reprocessed) and a second pass
yields `"a\nb"`. -/
theorem clean_formatting_not_idem_ctr :
    clean_formatting (clean_formatting "a\r\r\nb".toList) ≠ clean_formatting "a\r\r\nb".toList ∧
    clean_formatting "a\r\r\nb".toList = "a\r\nb".toList ∧
    clean_formatting "a\r\nb".toList = "a\nb".toList := by decide

/-- Claim C7 (corrected): the normaliser never throws on empty or null input,
returning the empty string, and it is idempotent on every text that contains
no carriage return; idempotence fails in general (see the counterexample). -/
theorem clean_formatting_total (t : Text) (h : '\r' ∉ t) :
    clean_formatting_opt none = [] ∧ clean_formatting [] = [] ∧
    clean_formatting (clean_formatting t) = clean_formatting t :=
  ⟨rfl, rfl, clean_formatting_idem t h⟩

/-- Witness for the amended C7 at a concrete carriage-return-free text. -/
theorem clean_formatting_total_witness :
    ('\r' ∉ "Hello  **world**\n\n\n\nbye # ok".toList) ∧
    (clean_formatting_opt none = [] ∧ clean_formatting [] = [] ∧
     clean_formatting (clean_formatting "Hello  **world**\n\n\n\nbye # ok".toList)
       = clean_formatting "Hello  **world**\n\n\n\nbye # ok".toList) :=
  ⟨by decide, clean_formatting_total "Hello  **world**\n\n\n\nbye # ok".toList (by decide)⟩
